import Mathlib

/-!
Verification of the HyperCapslock remap engine (Rust sources:
`src-tauri/src/lib.rs`, `src-tauri/src/hook_macos.rs`,
`src-tauri/src/hook_windows.rs`) against its natural-language
specification.

Strings are modelled by Lean `String` (and as `List Char` where the YAML
rendering code manipulates text), `u16`/`u8`/`u64` machine integers by
`Nat` (none of the modelled code paths overflow or wrap: the values are
key codes, counts and millisecond timestamps that are only compared,
subtracted with saturation, and printed).
-/

namespace HyperCapslock

/-- From `lib.rs`: `enum DirectionalActionKind`. -/
inductive DirectionalActionKind where
  | Left
  | Right
  | Up
  | Down
  | WordForward
  | WordBack
  | Home
  | End
deriving DecidableEq

/-- From `lib.rs`: `enum JumpDirection`. -/
inductive JumpDirection where
  | Up
  | Down
deriving DecidableEq

/-- From `lib.rs`: `enum IndependentActionKind`. -/
inductive IndependentActionKind where
  | Backspace
  | NextLine
  | InsertQuotes
deriving DecidableEq

/-- From `lib.rs`: `enum ActionConfig`.  `count` is a Rust `u8`
(values 0..=255), modelled as `Nat`. -/
inductive ActionConfig where
  | Directional (action : DirectionalActionKind)
  | Jump (direction : JumpDirection) (count : Nat)
  | Independent (action : IndependentActionKind)
  | InputSource (input_source_id : String)
  | Command (command : String)
deriving DecidableEq

/-- From `lib.rs`: `struct ActionMappingEntry`.  `key` is a Rust `u16`
(a JavaScript keyCode), modelled as `Nat`. -/
structure ActionMappingEntry where
  key : Nat
  with_shift : Bool
  action : ActionConfig
deriving DecidableEq

/-- The uniqueness invariant of the mapping table stated in the spec
(section 3): at most one entry per `(key, with_shift)` pair. -/
def pair_unique (l : List ActionMappingEntry) : Prop :=
  List.Pairwise (fun a b => ¬(a.key = b.key ∧ a.with_shift = b.with_shift)) l

/-- From `lib.rs`: `fn upsert_action_mapping_in_vec`.  Returns the updated
table together with the `changed` flag.  The Rust code mutates the vector
through `iter_mut().find(..)`, i.e. it updates the first entry whose
`(key, with_shift)` pair matches, or pushes at the end. -/
def upsert_action_mapping_in_vec (mappings : List ActionMappingEntry)
    (entry : ActionMappingEntry) : List ActionMappingEntry × Bool :=
  match mappings with
  | [] => ([entry], true)
  | m :: rest =>
    if m.key = entry.key ∧ m.with_shift = entry.with_shift then
      if m ≠ entry then (entry :: rest, true) else (m :: rest, false)
    else
      let r := upsert_action_mapping_in_vec rest entry
      (m :: r.1, r.2)

/-- From `lib.rs`: `fn remove_action_mapping_from_vec` (a `Vec::retain`
dropping every entry with the given `(key, with_shift)` pair, reporting
whether the length changed). -/
def remove_action_mapping_from_vec (mappings : List ActionMappingEntry)
    (key : Nat) (with_shift : Bool) : List ActionMappingEntry × Bool :=
  let kept := mappings.filter (fun m => !(m.key == key && m.with_shift == with_shift))
  (kept, kept.length ≠ mappings.length)

/-- From `lib.rs`: `fn normalize_action_mappings` — deduplicates by
`(key, with_shift)`, a later entry overwriting the earlier one in place. -/
def normalize_action_mappings (mappings : List ActionMappingEntry) :
    List ActionMappingEntry :=
  mappings.foldl
    (fun deduped entry =>
      if deduped.any (fun m => m.key == entry.key && m.with_shift == entry.with_shift) then
        deduped.map (fun m =>
          if m.key == entry.key && m.with_shift == entry.with_shift then entry else m)
      else deduped ++ [entry])
    []

/-- From `hook_macos.rs`: `fn allow_shift_fallback` — `InputSource` and
`Command` actions are excluded from the shift fallback. -/
def allow_shift_fallback (action : ActionConfig) : Bool :=
  match action with
  | .InputSource _ => false
  | .Command _ => false
  | _ => true

/-- From `hook_macos.rs`: `fn resolve_action_mapping` over a loaded table:
first the exact `(key, with_shift)` match, then — when shift is held — the
first `with_shift == false` entry for the key whose action allows the
shift fallback. -/
def resolve_action_mapping (mappings : List ActionMappingEntry)
    (js_keycode : Nat) (shift_held : Bool) : Option ActionMappingEntry :=
  match mappings.find? (fun m => m.key == js_keycode && m.with_shift == shift_held) with
  | some entry => some entry
  | none =>
    if shift_held then
      mappings.find? (fun m =>
        m.key == js_keycode && !m.with_shift && allow_shift_fallback m.action)
    else
      none

/-- Resolver following the words of the spec (section 4.3), for the
refinement comparison of claim C1: exact match first; if shift is held and
there is no exact match, look up the `(key, with_shift=false)` entry and
return it unless its action is `InputSource` or `Command`. -/
def resolve_action_mapping_spec (mappings : List ActionMappingEntry)
    (js_keycode : Nat) (shift_held : Bool) : Option ActionMappingEntry :=
  match mappings.find? (fun m => m.key == js_keycode && m.with_shift == shift_held) with
  | some entry => some entry
  | none =>
    if shift_held then
      match mappings.find? (fun m => m.key == js_keycode && m.with_shift == false) with
      | some entry => if allow_shift_fallback entry.action then some entry else none
      | none => none
    else
      none

/-- From `lib.rs`: `fn default_action_mappings`.  The two `InputSource`
defaults (keys 188 and 190) are added only when compiling for macOS
(`cfg(target_os = "macos")`); the flag selects the platform. -/
def default_action_mappings (macos : Bool) : List ActionMappingEntry :=
  [ ⟨72, false, .Directional .Left⟩,
    ⟨74, false, .Directional .Down⟩,
    ⟨75, false, .Directional .Up⟩,
    ⟨76, false, .Directional .Right⟩,
    ⟨80, false, .Directional .WordForward⟩,
    ⟨89, false, .Directional .WordBack⟩,
    ⟨65, false, .Directional .Home⟩,
    ⟨69, false, .Directional .End⟩,
    ⟨85, false, .Jump .Up 10⟩,
    ⟨68, false, .Jump .Down 10⟩,
    ⟨73, false, .Independent .Backspace⟩,
    ⟨78, false, .Independent .InsertQuotes⟩,
    ⟨79, false, .Independent .NextLine⟩ ] ++
  (if macos then
    [ ⟨188, false, .InputSource "com.apple.keylayout.ABC"⟩,
      ⟨190, false, .InputSource "com.tencent.inputmethod.wetype.pinyin"⟩ ]
  else
    [])

/-- Insert-or-overwrite on an association list, modelling
`HashMap::insert` (used by `sync_legacy_mappings_cache_from_actions`). -/
def hm_insert (m : List (Nat × String)) (k : Nat) (v : String) :
    List (Nat × String) :=
  if m.any (fun p => p.1 == k) then
    m.map (fun p => if p.1 == k then (k, v) else p)
  else
    m ++ [(k, v)]

/-- The `shell` half of `lib.rs`: `fn sync_legacy_mappings_cache_from_actions`
(the `HashMap` handed to the Windows hook through `SHELL_MAPPINGS`): every
`Command` entry with `with_shift == true`, keyed by `key`. -/
def sync_shell_mappings (mappings : List ActionMappingEntry) :
    List (Nat × String) :=
  mappings.foldl
    (fun shell entry =>
      match entry.action with
      | .Command command => if entry.with_shift then hm_insert shell entry.key command else shell
      | _ => shell)
    []

/-- Lookup in the modelled `SHELL_MAPPINGS` hash map (`Option` because the
global starts out as `None`). -/
def lookup_shell (shell : Option (List (Nat × String))) (vk : Nat) : Option String :=
  match shell with
  | none => none
  | some m => (m.find? (fun p => p.1 == vk)).map (fun p => p.2)

/-! ### macOS hook model (`hook_macos.rs`) -/

/-- From `hook_macos.rs`: `INJECTED_EVENT_MAGIC` (0x4756_4C4E), the value
stamped into `EVENT_SOURCE_USER_DATA` of every injected event. -/
def INJECTED_EVENT_MAGIC : Int := 0x47564C4E

/-- From `hook_macos.rs`: `CAPS_TAP_MAX_MS`. -/
def CAPS_TAP_MAX_MS : Nat := 200

/-- macOS key codes from `hook_macos.rs`. -/
def KC_CAPS_LOCK : Nat := 0x39
/-- CapsLock is remapped to F18 via hidutil. -/
def KC_F18 : Nat := 0x4F
/-- macOS Return key code. -/
def KC_RETURN : Nat := 0x24
/-- macOS Backspace (Delete) key code. -/
def KC_DELETE : Nat := 0x33
/-- macOS Left-arrow key code. -/
def KC_LEFT : Nat := 0x7B
/-- macOS Right-arrow key code. -/
def KC_RIGHT : Nat := 0x7C
/-- macOS Down-arrow key code. -/
def KC_DOWN : Nat := 0x7D
/-- macOS Up-arrow key code. -/
def KC_UP : Nat := 0x7E

/-- From `hook_macos.rs`: `fn mac_keycode_to_js_keycode` — the static
translation table from macOS key codes to JavaScript keyCodes; codes with
no entry yield `none`. -/
def mac_keycode_to_js_keycode (mac_keycode : Nat) : Option Nat :=
  match mac_keycode with
  | 0x00 => some 65
  | 0x0B => some 66
  | 0x08 => some 67
  | 0x02 => some 68
  | 0x0E => some 69
  | 0x03 => some 70
  | 0x05 => some 71
  | 0x04 => some 72
  | 0x22 => some 73
  | 0x26 => some 74
  | 0x28 => some 75
  | 0x25 => some 76
  | 0x2E => some 77
  | 0x2D => some 78
  | 0x1F => some 79
  | 0x23 => some 80
  | 0x0C => some 81
  | 0x0F => some 82
  | 0x01 => some 83
  | 0x11 => some 84
  | 0x20 => some 85
  | 0x09 => some 86
  | 0x0D => some 87
  | 0x07 => some 88
  | 0x10 => some 89
  | 0x06 => some 90
  | 0x1D => some 48
  | 0x12 => some 49
  | 0x13 => some 50
  | 0x14 => some 51
  | 0x15 => some 52
  | 0x16 => some 53
  | 0x17 => some 54
  | 0x18 => some 55
  | 0x19 => some 56
  | 0x1A => some 57
  | 0x2B => some 188
  | 0x2F => some 190
  | _ => none

/-- The five modifier bits retained by `active_modifier_flags`
(`CGEventFlags` masked to Shift, Control, Alternate, Command, Fn).  The
model carries only this mask, since no other flag bit influences the
modelled code. -/
structure ModFlags where
  shift : Bool
  control : Bool
  alt : Bool
  command : Bool
  fn : Bool
deriving DecidableEq

/-- No modifier flags (`CGEventFlags::empty()`). -/
def noFlags : ModFlags := ⟨false, false, false, false, false⟩

/-- Only the Command flag (`CGEventFlags::CGEventFlagCommand`). -/
def cmdFlag : ModFlags := ⟨false, false, false, true, false⟩

/-- Add the Alternate flag (`flags | CGEventFlagAlternate`). -/
def withAlt (f : ModFlags) : ModFlags := { f with alt := true }

/-- Add the Command flag (`flags | CGEventFlagCommand`). -/
def withCmd (f : ModFlags) : ModFlags := { f with command := true }

/-- Process-wide mutable state of the Caps tracker: the atomics
`CAPS_DOWN`, `CAPS_PRESSED_AT_MS` (0 when cleared) and `DID_REMAP` from
`lib.rs`. -/
structure CapsState where
  caps_down : Bool
  caps_pressed_at_ms : Nat
  did_remap : Bool
deriving DecidableEq

/-- Event kinds delivered to the macOS event tap (`CGEventType`). -/
inductive MacEventType where
  | keyDown
  | keyUp
  | flagsChanged
  | tapDisabledByTimeout
  | tapDisabledByUserInput
deriving DecidableEq

/-- A macOS event as read by the tap callback: its type, its
`KEYBOARD_EVENT_KEYCODE` field, its (masked) flags and its
`EVENT_SOURCE_USER_DATA` field. -/
structure MacEvent where
  etype : MacEventType
  keycode : Nat
  flags : ModFlags
  user_data : Int
deriving DecidableEq

/-- A synthetic event posted by the macOS executor: either a keyboard
event (`CGEvent::new_keyboard_event` + `set_flags`) or a quote-character
insert (`new_keyboard_event(source, 0, true)` + `set_string`). -/
inductive Posted where
  | key (keycode : Nat) (key_down : Bool) (flags : ModFlags)
  | text (s : String)
deriving DecidableEq

/-- Observable side effects of one run of the macOS tap callback. -/
structure MacEffects where
  posts : List Posted
  toggle_caps : Nat
  commands : List String
  input_source_switches : List String
  reenable : Bool
deriving DecidableEq

/-- No side effects. -/
def emptyMacEffects : MacEffects := ⟨[], 0, [], [], false⟩

/-- From `hook_macos.rs`: `fn post_key` (one injected keyboard event). -/
def post_key (keycode : Nat) (key_down : Bool) (flags : ModFlags) : List Posted :=
  [.key keycode key_down flags]

/-- From `hook_macos.rs`: `fn post_key_tap` (down followed by up). -/
def post_key_tap (keycode : Nat) (flags : ModFlags) : List Posted :=
  post_key keycode true flags ++ post_key keycode false flags

/-- From `hook_macos.rs`: `fn execute_action_mapping`, as the side effects
it produces for a resolved action on a given down/up edge with the active
modifier mask. -/
def execute_action_mapping (action : ActionConfig) (key_down : Bool)
    (active_modifiers : ModFlags) : MacEffects :=
  match action with
  | .Directional a =>
    let posts :=
      match a with
      | .Left => post_key KC_LEFT key_down active_modifiers
      | .Right => post_key KC_RIGHT key_down active_modifiers
      | .Up => post_key KC_UP key_down active_modifiers
      | .Down => post_key KC_DOWN key_down active_modifiers
      | .WordForward => post_key KC_RIGHT key_down (withAlt active_modifiers)
      | .WordBack => post_key KC_LEFT key_down (withAlt active_modifiers)
      | .Home => post_key KC_LEFT key_down (withCmd active_modifiers)
      | .End => post_key KC_RIGHT key_down (withCmd active_modifiers)
    { emptyMacEffects with posts := posts }
  | .Jump direction count =>
    if key_down then
      let keycode := match direction with | .Up => KC_UP | .Down => KC_DOWN
      { emptyMacEffects with
        posts := (List.range count).flatMap (fun _ => post_key_tap keycode active_modifiers) }
    else
      emptyMacEffects
  | .Independent a =>
    match a with
    | .Backspace => { emptyMacEffects with posts := post_key KC_DELETE key_down active_modifiers }
    | .NextLine =>
      if key_down then
        { emptyMacEffects with posts := post_key_tap KC_RIGHT cmdFlag ++ post_key_tap KC_RETURN noFlags }
      else
        emptyMacEffects
    | .InsertQuotes =>
      if key_down then
        { emptyMacEffects with
          posts := (List.range 6).flatMap (fun _ => [Posted.text "\""]) ++
                   (List.range 3).flatMap (fun _ => post_key_tap KC_LEFT noFlags) }
      else
        emptyMacEffects
  | .InputSource input_source_id =>
    if key_down then { emptyMacEffects with input_source_switches := [input_source_id] }
    else emptyMacEffects
  | .Command command =>
    if key_down then { emptyMacEffects with commands := [command] }
    else emptyMacEffects

/-- `resolve_action_mapping` through the `ACTION_MAPPINGS` global, which
is `None` until a table is loaded (`guard.as_ref()?`). -/
def resolve_action_mapping_opt (table : Option (List ActionMappingEntry))
    (js_keycode : Nat) (shift_held : Bool) : Option ActionMappingEntry :=
  match table with
  | none => none
  | some mappings => resolve_action_mapping mappings js_keycode shift_held

/-- One run of the macOS event-tap callback from `fn start_keyboard_hook`
in `hook_macos.rs`.  Inputs: the `IS_PAUSED` flag, the `ACTION_MAPPINGS`
table, the current `CapsState`, the current time (`now_millis`) and the
event.  Output: the new `CapsState`, whether the event was swallowed
(its type set to `Null`), and the side effects. -/
def macStep (paused : Bool) (table : Option (List ActionMappingEntry))
    (st : CapsState) (now : Nat) (ev : MacEvent) :
    CapsState × Bool × MacEffects :=
  if ev.etype = .tapDisabledByTimeout ∨ ev.etype = .tapDisabledByUserInput then
    (st, false, { emptyMacEffects with reenable := true })
  else if ev.user_data = INJECTED_EVENT_MAGIC then
    (st, false, emptyMacEffects)
  else if paused then
    (st, false, emptyMacEffects)
  else if ev.keycode = KC_F18 then
    if ev.etype = .keyDown then
      if st.caps_down then
        ({ st with caps_down := true }, true, emptyMacEffects)
      else
        (⟨true, now, false⟩, true, emptyMacEffects)
    else if ev.etype = .keyUp then
      let held_ms := now - st.caps_pressed_at_ms
      let toggles :=
        if st.caps_down ∧ st.did_remap = false ∧ held_ms ≤ CAPS_TAP_MAX_MS then 1 else 0
      ({ st with caps_down := false, caps_pressed_at_ms := 0 }, true,
        { emptyMacEffects with toggle_caps := toggles })
    else
      (st, true, emptyMacEffects)
  else if ev.etype = .flagsChanged ∧ ev.keycode = KC_CAPS_LOCK then
    (st, true, emptyMacEffects)
  else if st.caps_down then
    match mac_keycode_to_js_keycode ev.keycode with
    | none => (st, false, emptyMacEffects)
    | some js_keycode =>
      match resolve_action_mapping_opt table js_keycode ev.flags.shift with
      | none => (st, false, emptyMacEffects)
      | some mapping =>
        ({ st with did_remap := true }, true,
          execute_action_mapping mapping.action (ev.etype = .keyDown) ev.flags)
  else
    (st, false, emptyMacEffects)

/-! ### Windows hook model (`hook_windows.rs`) -/

/-- Windows virtual-key codes used by `hook_windows.rs`. -/
def VK_CAPITAL : Nat := 0x14
/-- Windows Left-arrow virtual key. -/
def VK_LEFT : Nat := 0x25
/-- Windows Up-arrow virtual key. -/
def VK_UP : Nat := 0x26
/-- Windows Right-arrow virtual key. -/
def VK_RIGHT : Nat := 0x27
/-- Windows Down-arrow virtual key. -/
def VK_DOWN : Nat := 0x28
/-- Windows Backspace virtual key. -/
def VK_BACK : Nat := 0x08
/-- Windows Return virtual key. -/
def VK_RETURN : Nat := 0x0D
/-- Windows Home virtual key. -/
def VK_HOME : Nat := 0x24
/-- Windows End virtual key. -/
def VK_END : Nat := 0x23
/-- Windows left-Control virtual key. -/
def VK_LCONTROL : Nat := 0xA2

/-- Window messages distinguished by the low-level hook. -/
inductive WinMsg where
  | keyDown
  | keyUp
  | sysKeyDown
  | sysKeyUp
  | other
deriving DecidableEq

/-- An event delivered to the Windows low-level keyboard hook: the virtual
key from the `KBDLLHOOKSTRUCT`, the message kind, and the
`LLKHF_INJECTED` bit (flag `0x10`). -/
structure WinEvent where
  vk : Nat
  msg : WinMsg
  injected : Bool
deriving DecidableEq

/-- A synthetic input sent by the Windows hook: `send_key` (a virtual key
with an up/down flag) or `send_unicode` (a character down+up pair). -/
inductive WinSend where
  | key (vk : Nat) (up : Bool)
  | unicode (ch : Nat)
deriving DecidableEq

/-- Observable side effects of one run of the Windows hook callback. -/
structure WinEffects where
  sends : List WinSend
  commands : List String
deriving DecidableEq

/-- No Windows side effects. -/
def emptyWinEffects : WinEffects := ⟨[], []⟩

/-- The hardcoded per-key arms of `low_level_keyboard_proc` (the `match vk`
in `hook_windows.rs`), as the list of inputs they send for the original
event's up/down edge; `none` when the key has no arm. -/
def win_key_sends (vk : Nat) (is_up is_down : Bool) : Option (List WinSend) :=
  if vk = 72 then some [.key VK_LEFT is_up]
  else if vk = 74 then some [.key VK_DOWN is_up]
  else if vk = 75 then some [.key VK_UP is_up]
  else if vk = 76 then some [.key VK_RIGHT is_up]
  else if vk = 73 then some [.key VK_BACK is_up]
  else if vk = 78 then
    some (if is_down then
      (List.range 6).flatMap (fun _ => [WinSend.unicode 34]) ++
      (List.range 3).flatMap (fun _ => [WinSend.key VK_LEFT false, WinSend.key VK_LEFT true])
    else [])
  else if vk = 80 then
    some (if is_down then [.key VK_LCONTROL false, .key VK_RIGHT false]
          else [.key VK_RIGHT true, .key VK_LCONTROL true])
  else if vk = 89 then
    some (if is_down then [.key VK_LCONTROL false, .key VK_LEFT false]
          else [.key VK_LEFT true, .key VK_LCONTROL true])
  else if vk = 65 then some [.key VK_HOME is_up]
  else if vk = 69 then some [.key VK_END is_up]
  else if vk = 85 then
    some (if is_down then
      (List.range 10).flatMap (fun _ => [WinSend.key VK_UP false, WinSend.key VK_UP true])
    else [])
  else if vk = 68 then
    some (if is_down then
      (List.range 10).flatMap (fun _ => [WinSend.key VK_DOWN false, WinSend.key VK_DOWN true])
    else [])
  else if vk = 79 then
    some (if is_down then
      [.key VK_END false, .key VK_END true, .key VK_RETURN false, .key VK_RETURN true]
    else [])
  else none

/-- One run of `low_level_keyboard_proc` from `hook_windows.rs` (for hook
codes `>= 0`).  Inputs: `IS_PAUSED`, the `SHELL_MAPPINGS` map, the result
of `GetAsyncKeyState(VK_SHIFT)`, the current `CapsState` and the event.
Output: new `CapsState`, whether `LRESULT(1)` was returned (event
swallowed), and the side effects.  There is no time input: this callback
never reads a clock and never touches `CAPS_PRESSED_AT_MS`. -/
def low_level_keyboard_proc (paused : Bool)
    (shell : Option (List (Nat × String))) (shift_down : Bool)
    (st : CapsState) (ev : WinEvent) : CapsState × Bool × WinEffects :=
  if paused then (st, false, emptyWinEffects)
  else if ev.injected then (st, false, emptyWinEffects)
  else if ev.vk = VK_CAPITAL ∧ (ev.msg = .keyDown ∨ ev.msg = .sysKeyDown) then
    ({ st with caps_down := true, did_remap := false }, true, emptyWinEffects)
  else if ev.vk = VK_CAPITAL ∧ (ev.msg = .keyUp ∨ ev.msg = .sysKeyUp) then
    ({ st with caps_down := false }, true,
      { emptyWinEffects with
        sends := if st.did_remap then [] else [.key VK_CAPITAL false, .key VK_CAPITAL true] })
  else if st.caps_down then
    match (if shift_down ∧ (ev.msg = .keyDown ∨ ev.msg = .sysKeyDown) then
        lookup_shell shell ev.vk else none) with
    | some command =>
      ({ st with did_remap := true }, true, { emptyWinEffects with commands := [command] })
    | none =>
      match win_key_sends ev.vk (decide (ev.msg = .keyUp ∨ ev.msg = .sysKeyUp))
          (decide (ev.msg = .keyDown ∨ ev.msg = .sysKeyDown)) with
      | some sends => ({ st with did_remap := true }, true, { emptyWinEffects with sends := sends })
      | none => (st, false, emptyWinEffects)
  else
    (st, false, emptyWinEffects)

/-! ### Decision-level comparison of the two callbacks (claim C2) -/

/-- The remap decision the macOS callback takes for a key while the Hyper
modifier is held: the action of the resolved mapping entry (`none` means
the key passes through). -/
def mac_remap_action (table : List ActionMappingEntry) (js_keycode : Nat)
    (shift_held : Bool) : Option ActionConfig :=
  (resolve_action_mapping table js_keycode shift_held).map (fun e => e.action)

/-- Abstraction of the hardcoded per-key arms of `low_level_keyboard_proc`
to the `ActionConfig` each arm implements: `VK_H` forwards the edge as a
Left arrow (`Directional Left`), `VK_N` synthesizes the quote macro
(`Independent InsertQuotes`), `VK_U` synthesizes ten Up taps
(`Jump Up 10`), and so on, following `win_key_sends` arm by arm. -/
def win_hardcoded_action (vk : Nat) : Option ActionConfig :=
  if vk = 72 then some (.Directional .Left)
  else if vk = 74 then some (.Directional .Down)
  else if vk = 75 then some (.Directional .Up)
  else if vk = 76 then some (.Directional .Right)
  else if vk = 73 then some (.Independent .Backspace)
  else if vk = 78 then some (.Independent .InsertQuotes)
  else if vk = 80 then some (.Directional .WordForward)
  else if vk = 89 then some (.Directional .WordBack)
  else if vk = 65 then some (.Directional .Home)
  else if vk = 69 then some (.Directional .End)
  else if vk = 85 then some (.Jump .Up 10)
  else if vk = 68 then some (.Jump .Down 10)
  else if vk = 79 then some (.Independent .NextLine)
  else none

/-- The remap decision the Windows callback takes for a virtual key while
the Hyper modifier is held: a shell `Command` when shift is down on a
key-down edge and `SHELL_MAPPINGS` has the key, otherwise the hardcoded
arm. -/
def win_remap_action (shell : List (Nat × String)) (vk : Nat)
    (shift_held is_down : Bool) : Option ActionConfig :=
  if shift_held ∧ is_down then
    match lookup_shell (some shell) vk with
    | some command => some (.Command command)
    | none => win_hardcoded_action vk
  else
    win_hardcoded_action vk

/-- Claim C2 as stated: for every mapping table, every key and every
shift/edge state, the Windows callback (running against the shell-command
mirror synced from that table) reaches the same remap decision as the
macOS callback resolving the table itself. -/
def callbacks_agree_on_every_table : Prop :=
  ∀ (table : List ActionMappingEntry) (k : Nat) (s d : Bool),
    win_remap_action (sync_shell_mappings table) k s d = mac_remap_action table k s

/-! ### Validation and configuration commands (`lib.rs`, claims C5, C10) -/

/-- Rust `str::trim().is_empty()`: the string has no non-whitespace
character. -/
def trim_is_empty (s : String) : Bool :=
  s.data.all (fun c => c.isWhitespace)

/-- From `lib.rs`: the validation and table mutation performed by the
`upsert_action_mapping` tauri command, as a pure function on the table:
reject a `Command` whose text trims to empty, an `InputSource` whose id
trims to empty and a `Jump` with count 0 before touching the table;
otherwise upsert and normalize.  (Persistence to disk happens only after
the mutation and is outside the model.) -/
def upsert_action_mapping (table : List ActionMappingEntry) (key : Nat)
    (with_shift : Bool) (action : ActionConfig) :
    Except String (List ActionMappingEntry) :=
  match action with
  | .Command command =>
    if trim_is_empty command then .error "command cannot be empty"
    else .ok (normalize_action_mappings
      (upsert_action_mapping_in_vec table ⟨key, with_shift, .Command command⟩).1)
  | .InputSource input_source_id =>
    if trim_is_empty input_source_id then .error "input_source_id cannot be empty"
    else .ok (normalize_action_mappings
      (upsert_action_mapping_in_vec table ⟨key, with_shift, .InputSource input_source_id⟩).1)
  | .Jump direction count =>
    if count = 0 then .error "jump count must be >= 1"
    else .ok (normalize_action_mappings
      (upsert_action_mapping_in_vec table ⟨key, with_shift, .Jump direction count⟩).1)
  | .Directional a =>
    .ok (normalize_action_mappings
      (upsert_action_mapping_in_vec table ⟨key, with_shift, .Directional a⟩).1)
  | .Independent a =>
    .ok (normalize_action_mappings
      (upsert_action_mapping_in_vec table ⟨key, with_shift, .Independent a⟩).1)

/-- Claim C5 as stated: the upsert command errors exactly when the action
is a `Command` with empty text, an `InputSource` with empty id, or a
`Jump` with count 0. -/
def upsert_errors_exactly_on_empty : Prop :=
  ∀ (table : List ActionMappingEntry) (key : Nat) (with_shift : Bool) (action : ActionConfig),
    (∃ e, upsert_action_mapping table key with_shift action = .error e) ↔
      (action = .Command "" ∨ action = .InputSource "" ∨ ∃ d, action = .Jump d 0)

/-- Whether an action is an `InputSource` (the `matches!` test inside
`remove_input_source_mapping`). -/
def is_input_source_action (action : ActionConfig) : Bool :=
  match action with
  | .InputSource _ => true
  | _ => false

/-- From `lib.rs`: the table mutation performed by the legacy
`remove_input_source_mapping` tauri command: remove the `(key, false)`
entries only when some `(key, false)` entry holds an `InputSource`
action. -/
def remove_input_source_mapping (table : List ActionMappingEntry) (key : Nat) :
    List ActionMappingEntry :=
  if table.any (fun m => m.key == key && !m.with_shift && is_input_source_action m.action) then
    (remove_action_mapping_from_vec table key false).1
  else
    table

/-- Claim C9's `pressed_at` obligation read on the Windows callback:
whenever a processed event takes `held` from false to true, the new state
carries a set (non-zero) `pressed_at` timestamp. -/
def win_pressed_at_set_on_press : Prop :=
  ∀ (paused : Bool) (shell : Option (List (Nat × String))) (shift_down : Bool)
    (st : CapsState) (ev : WinEvent),
    st.caps_down = false →
    ((low_level_keyboard_proc paused shell shift_down st ev).1).caps_down = true →
    ((low_level_keyboard_proc paused shell shift_down st ev).1).caps_pressed_at_ms ≠ 0

/-! ### YAML persistence (`lib.rs`, claim C8)

The renderer is translated from `render_action_mappings_yaml_with_comments`
and its helpers; text is modelled as `List Char`.  The deserializer is the
external `serde_yaml` crate, not code of this repository, so it is
modelled for the subset of YAML the renderer emits. -/

/-- The single-quote character (written via its code point so that the
development stays free of quote literals). -/
def squote : Char := Char.ofNat 39

/-- The decimal digit characters 0-9. -/
def digit_char (d : Nat) : Char :=
  if d = 0 then Char.ofNat 48
  else if d = 1 then Char.ofNat 49
  else if d = 2 then Char.ofNat 50
  else if d = 3 then Char.ofNat 51
  else if d = 4 then Char.ofNat 52
  else if d = 5 then Char.ofNat 53
  else if d = 6 then Char.ofNat 54
  else if d = 7 then Char.ofNat 55
  else if d = 8 then Char.ofNat 56
  else Char.ofNat 57

/-- Decimal rendering worker (most significant digit first); `fuel` only
bounds the recursion and any `fuel ≥ n` yields the digits of `n`. -/
def nat_digits_aux : Nat → Nat → List Char
  | 0, _ => []
  | fuel + 1, n =>
    if n = 0 then []
    else nat_digits_aux fuel (n / 10) ++ [digit_char (n % 10)]

/-- Rust `format!` of an unsigned integer: its decimal digits. -/
def nat_digit_chars (n : Nat) : List Char :=
  if n = 0 then [Char.ofNat 48] else nat_digits_aux n n

/-- Numeric value of a decimal digit string (most significant first). -/
def digits_value (ds : List Char) : Nat :=
  ds.foldl (fun acc c => acc * 10 + (c.toNat - 48)) 0

/-- From `lib.rs`: `fn js_keycode_name` — the human-readable key name used
in the rendered comment.  For codes 48..=57 and 65..=90 the Rust code
produces the character whose code point is the key code itself
(`b'0' + (key - 48)` resp. `b'A' + (key - 65)`). -/
def js_keycode_name (key : Nat) : List Char :=
  if 48 ≤ key ∧ key ≤ 57 then [Char.ofNat key]
  else if 65 ≤ key ∧ key ≤ 90 then [Char.ofNat key]
  else if key = 8 then "Del".data
  else if key = 13 then "Enter".data
  else if key = 37 then "Left".data
  else if key = 38 then "Up".data
  else if key = 39 then "Right".data
  else if key = 40 then "Down".data
  else if key = 186 then ";".data
  else if key = 187 then "=".data
  else if key = 188 then ",".data
  else if key = 189 then "-".data
  else if key = 190 then ".".data
  else if key = 191 then "/".data
  else if key = 220 then "\\".data
  else if key = 222 then [squote]
  else "Key".data ++ nat_digit_chars key

/-- Rust `value.replace(single-quote, two single-quotes)` from
`yaml_quote`. -/
def escape_squotes : List Char → List Char
  | [] => []
  | c :: rest =>
    if c = squote then squote :: squote :: escape_squotes rest
    else c :: escape_squotes rest

/-- From `lib.rs`: `fn yaml_quote` — wrap in single quotes, doubling any
single quote in the value. -/
def yaml_quote (value : String) : List Char :=
  squote :: escape_squotes value.data ++ [squote]

/-- From `lib.rs`: `fn directional_action_name`. -/
def directional_action_name (a : DirectionalActionKind) : List Char :=
  match a with
  | .Left => "left".data
  | .Right => "right".data
  | .Up => "up".data
  | .Down => "down".data
  | .WordForward => "word_forward".data
  | .WordBack => "word_back".data
  | .Home => "home".data
  | .End => "end".data

/-- From `lib.rs`: `fn jump_direction_name`. -/
def jump_direction_name (d : JumpDirection) : List Char :=
  match d with
  | .Up => "up".data
  | .Down => "down".data

/-- From `lib.rs`: `fn independent_action_name`. -/
def independent_action_name (a : IndependentActionKind) : List Char :=
  match a with
  | .Backspace => "backspace".data
  | .NextLine => "next_line".data
  | .InsertQuotes => "insert_quotes".data

/-- The three comment lines at the top of the rendered file. -/
def header_lines : List (List Char) :=
  [ "# HyperCapslock action mappings".data,
    "# key uses JavaScript keyCode".data,
    "# with_shift=false -> Caps+Key, with_shift=true -> Caps+Shift+Key".data ]

/-- The action-specific lines pushed for one entry by
`render_action_mappings_yaml_with_comments`. -/
def action_lines (action : ActionConfig) : List (List Char) :=
  match action with
  | .Directional a =>
    [ "    kind: directional".data,
      "    action: ".data ++ directional_action_name a ]
  | .Jump direction count =>
    [ "    kind: jump".data,
      "    direction: ".data ++ jump_direction_name direction,
      "    count: ".data ++ nat_digit_chars count ]
  | .Independent a =>
    [ "    kind: independent".data,
      "    action: ".data ++ independent_action_name a ]
  | .InputSource input_source_id =>
    [ "    kind: input_source".data,
      "    input_source_id: ".data ++ yaml_quote input_source_id ]
  | .Command command =>
    [ "    kind: command".data,
      "    command: ".data ++ yaml_quote command ]

/-- All lines pushed for one entry. -/
def entry_lines (e : ActionMappingEntry) : List (List Char) :=
  ("- key: ".data ++ nat_digit_chars e.key ++ " # ".data ++ js_keycode_name e.key) ::
  ("  with_shift: ".data ++ (if e.with_shift then "true".data else "false".data)) ::
  "  action:".data ::
  action_lines e.action

/-- The full `lines` vector built by
`render_action_mappings_yaml_with_comments`. -/
def render_lines (mappings : List ActionMappingEntry) : List (List Char) :=
  header_lines ++ mappings.flatMap entry_lines

/-- Rust `Vec::join` with a newline separator. -/
def join_with_nl : List (List Char) → List Char
  | [] => []
  | [l] => l
  | l :: ls => l ++ Char.ofNat 10 :: join_with_nl ls

/-- From `lib.rs`: `fn render_action_mappings_yaml_with_comments` —
`lines.join(newline) + newline`. -/
def render_action_mappings_yaml_with_comments
    (mappings : List ActionMappingEntry) : List Char :=
  join_with_nl (render_lines mappings) ++ [Char.ofNat 10]

/-- Modelled from the spec: the external YAML deserializer
(`serde_yaml::from_str::<Vec<ActionMappingEntry>>`, not code of this
repository) splits its input into lines.  A single-quoted scalar that the
renderer broke across lines therefore cannot be recovered verbatim. -/
def split_on_nl : List Char → List (List Char)
  | [] => [[]]
  | c :: rest =>
    if c = Char.ofNat 10 then [] :: split_on_nl rest
    else
      match split_on_nl rest with
      | [] => [[c]]
      | l :: ls => (c :: l) :: ls

/-- Strip an expected exact sequence from the front of a line. -/
def dropPre : List Char → List Char → Option (List Char)
  | [], rest => some rest
  | _ :: _, [] => none
  | p :: ps, c :: cs => if c = p then dropPre ps cs else none

/-- A line the deserializer ignores: blank, or a whole-line `#` comment. -/
def is_skippable (line : List Char) : Bool :=
  match line.dropWhile (fun c => c = ' ') with
  | [] => true
  | c :: _ => c = Char.ofNat 35

/-- Modelled from the spec: scanning the body of a single-quoted YAML
scalar — a doubled quote stands for one quote, a single closing quote must
end the field, and a field whose closing quote never appears on the line
is malformed. -/
def scan_quoted : List Char → Option (List Char)
  | [] => none
  | c :: rest =>
    if c = squote then
      match rest with
      | [] => some []
      | c2 :: rest2 =>
        if c2 = squote then (scan_quoted rest2).map (fun t => squote :: t)
        else none
    else
      (scan_quoted rest).map (fun t => c :: t)

/-- Modelled from the spec: a whole single-quoted YAML scalar on one
line. -/
def parse_quoted (l : List Char) : Option (List Char) :=
  match l with
  | c :: rest => if c = squote then scan_quoted rest else none
  | [] => none

/-- Read a decimal number from the front of a line. -/
def parse_nat_field (l : List Char) : Option (Nat × List Char) :=
  let ds := l.takeWhile Char.isDigit
  if ds.isEmpty then none
  else some (digits_value ds, l.dropWhile Char.isDigit)

/-- Parse a `- key: N # name` line (the comment, when present, is
discarded). -/
def parse_key_line (line : List Char) : Option Nat := do
  let rest ← dropPre "- key: ".data line
  let (k, after) ← parse_nat_field rest
  match after with
  | [] => some k
  | c1 :: c2 :: _ => if c1 = ' ' ∧ c2 = Char.ofNat 35 then some k else none
  | _ => none

/-- Parse a `  with_shift: b` line. -/
def parse_with_shift_line (line : List Char) : Option Bool := do
  let rest ← dropPre "  with_shift: ".data line
  if rest = "true".data then some true
  else if rest = "false".data then some false
  else none

/-- Directional kind from its rendered name. -/
def directional_of_name (w : List Char) : Option DirectionalActionKind :=
  if w = "left".data then some .Left
  else if w = "right".data then some .Right
  else if w = "up".data then some .Up
  else if w = "down".data then some .Down
  else if w = "word_forward".data then some .WordForward
  else if w = "word_back".data then some .WordBack
  else if w = "home".data then some .Home
  else if w = "end".data then some .End
  else none

/-- Jump direction from its rendered name. -/
def jump_direction_of_name (w : List Char) : Option JumpDirection :=
  if w = "up".data then some .Up
  else if w = "down".data then some .Down
  else none

/-- Independent kind from its rendered name. -/
def independent_of_name (w : List Char) : Option IndependentActionKind :=
  if w = "backspace".data then some .Backspace
  else if w = "next_line".data then some .NextLine
  else if w = "insert_quotes".data then some .InsertQuotes
  else none

/-- Parse a `    count: N` line. -/
def parse_count_line (line : List Char) : Option Nat := do
  let rest ← dropPre "    count: ".data line
  let (n, after) ← parse_nat_field rest
  if after = [] then some n else none

/-- Modelled from the spec: the YAML deserializer reading the lines of a
single mapping entry of the block sequence; returns the entry and the
unconsumed lines. -/
def parse_entry_head (line : List Char) (rest : List (List Char)) :
    Option (ActionMappingEntry × List (List Char)) :=
  match rest with
  | l1 :: l2 :: l3 :: rest2 =>
    match parse_key_line line, parse_with_shift_line l1 with
    | some key, some ws =>
      if l2 = "  action:".data then
        match dropPre "    kind: ".data l3 with
        | some kw =>
          if kw = "directional".data then
            match rest2 with
            | l4 :: rest3 =>
              match (dropPre "    action: ".data l4).bind directional_of_name with
              | some a => some (⟨key, ws, .Directional a⟩, rest3)
              | none => none
            | [] => none
          else if kw = "jump".data then
            match rest2 with
            | l4 :: l5 :: rest3 =>
              match (dropPre "    direction: ".data l4).bind jump_direction_of_name,
                    parse_count_line l5 with
              | some d, some n => some (⟨key, ws, .Jump d n⟩, rest3)
              | _, _ => none
            | _ => none
          else if kw = "independent".data then
            match rest2 with
            | l4 :: rest3 =>
              match (dropPre "    action: ".data l4).bind independent_of_name with
              | some a => some (⟨key, ws, .Independent a⟩, rest3)
              | none => none
            | [] => none
          else if kw = "input_source".data then
            match rest2 with
            | l4 :: rest3 =>
              match (dropPre "    input_source_id: ".data l4).bind parse_quoted with
              | some cs => some (⟨key, ws, .InputSource (String.mk cs)⟩, rest3)
              | none => none
            | [] => none
          else if kw = "command".data then
            match rest2 with
            | l4 :: rest3 =>
              match (dropPre "    command: ".data l4).bind parse_quoted with
              | some cs => some (⟨key, ws, .Command (String.mk cs)⟩, rest3)
              | none => none
            | [] => none
          else none
        | none => none
      else none
    | _, _ => none
  | _ => none

/-- Modelled from the spec: the YAML deserializer reading the block
sequence of mapping entries line by line; `fuel` (instantiated with the
number of lines) only bounds the recursion. -/
def parse_entries_fuel : Nat → List (List Char) → Option (List ActionMappingEntry)
  | _, [] => some []
  | 0, _ :: _ => none
  | fuel + 1, line :: rest =>
    if is_skippable line then parse_entries_fuel fuel rest
    else
      match parse_entry_head line rest with
      | some (e, rest2) => (parse_entries_fuel fuel rest2).map (fun es => e :: es)
      | none => none

/-- Modelled from the spec: the full deserialization of the persisted
text. -/
def parse_action_mappings_yaml (text : List Char) :
    Option (List ActionMappingEntry) :=
  parse_entries_fuel (split_on_nl text).length (split_on_nl text)

/-- A string the renderer can persist on a single line: it contains no
newline. -/
def good_string (s : String) : Prop :=
  ∀ c ∈ s.data, c ≠ Char.ofNat 10

/-- An entry whose rendered form keeps every field on its own line. -/
def good_entry (e : ActionMappingEntry) : Prop :=
  match e.action with
  | .InputSource input_source_id => good_string input_source_id
  | .Command command => good_string command
  | _ => True

/-- Replacement of the first entry whose `(key, with_shift)` pair matches,
in place — the spec side of claim C4. -/
def replace_first_matching : List ActionMappingEntry → ActionMappingEntry →
    List ActionMappingEntry
  | [], _ => []
  | m :: rest, e =>
    if m.key = e.key ∧ m.with_shift = e.with_shift then e :: rest
    else m :: replace_first_matching rest e

/-! ## Shared helper lemmas -/

/-- Two entries of a pair-unique table with the same `(key, with_shift)`
pair are the same entry. -/
theorem pair_unique_eq {l : List ActionMappingEntry} (h : pair_unique l)
    {x y : ActionMappingEntry} (hx : x ∈ l) (hy : y ∈ l)
    (hk : x.key = y.key) (hs : x.with_shift = y.with_shift) : x = y := by
  induction l with
  | nil => cases hx
  | cons a t ih =>
    rcases List.pairwise_cons.mp h with ⟨h1, h2⟩
    rcases List.mem_cons.mp hx with hxa | hxt
    · rcases List.mem_cons.mp hy with hya | hyt
      · rw [hxa, hya]
      · subst hxa
        exact False.elim (h1 y hyt ⟨hk, hs⟩)
    · rcases List.mem_cons.mp hy with hya | hyt
      · subst hya
        exact False.elim (h1 x hxt ⟨hk.symm, hs.symm⟩)
      · exact ih h2 hxt hyt

/-- A resolver lookup misses every key that is absent from the table. -/
theorem resolve_none_of_not_mem {l : List ActionMappingEntry} {k : Nat}
    (h : ∀ m ∈ l, m.key ≠ k) (s : Bool) :
    resolve_action_mapping l k s = none := by
  have hex : l.find? (fun m => m.key == k && m.with_shift == s) = none := by
    rw [List.find?_eq_none]
    intro m hm
    simp only [Bool.and_eq_true, beq_iff_eq]
    rintro ⟨hk, -⟩
    exact h m hm hk
  have hfb : l.find? (fun m =>
      m.key == k && !m.with_shift && allow_shift_fallback m.action) = none := by
    rw [List.find?_eq_none]
    intro m hm
    simp only [Bool.and_eq_true, beq_iff_eq]
    rintro ⟨⟨hk, -⟩, -⟩
    exact h m hm hk
  unfold resolve_action_mapping
  rw [hex, hfb]
  cases s <;> simp

/-! ## Claim C1 — resolver precedence and shift fallback -/

/-- Key step for C1: under the uniqueness invariant, the code's fallback
search (which skips disallowed actions while scanning) agrees with the
spec's reading (find the `(k, false)` entry, then veto it if its action is
`InputSource`/`Command`). -/
theorem find_fallback_eq {l : List ActionMappingEntry} (k : Nat)
    (h : pair_unique l) :
    l.find? (fun m => m.key == k && !m.with_shift && allow_shift_fallback m.action) =
      (match l.find? (fun m => m.key == k && m.with_shift == false) with
       | some e => if allow_shift_fallback e.action then some e else none
       | none => none) := by
  induction l with
  | nil => simp
  | cons m t ih =>
    rcases List.pairwise_cons.mp h with ⟨h1, h2⟩
    by_cases hk : m.key = k
    · cases hms : m.with_shift with
      | false =>
        have e1 : (m.key == k && m.with_shift == false) = true := by simp [hk, hms]
        cases ha : allow_shift_fallback m.action with
        | true =>
          have e2 : (m.key == k && !m.with_shift && allow_shift_fallback m.action) = true := by
            simp [hk, hms, ha]
          simp only [List.find?, e1, e2, ha]
          simp [hk, hms]
        | false =>
          have e2 : (m.key == k && !m.with_shift && allow_shift_fallback m.action) = false := by
            simp [hk, hms, ha]
          have ht : t.find? (fun m =>
              m.key == k && !m.with_shift && allow_shift_fallback m.action) = none := by
            rw [List.find?_eq_none]
            intro b hb
            simp only [Bool.and_eq_true, beq_iff_eq, Bool.not_eq_true']
            rintro ⟨⟨hbk, hbs⟩, -⟩
            exact h1 b hb ⟨hk.trans hbk.symm, hms.trans hbs.symm⟩
          simp only [List.find?, e1, e2, ha, ht]
          simp
      | true =>
        have e1 : (m.key == k && m.with_shift == false) = false := by simp [hms]
        have e2 : (m.key == k && !m.with_shift && allow_shift_fallback m.action) = false := by
          simp [hms]
        simp only [List.find?, e1, e2]
        exact ih h2
    · have e1 : (m.key == k && m.with_shift == false) = false := by simp [hk]
      have e2 : (m.key == k && !m.with_shift && allow_shift_fallback m.action) = false := by
        simp [hk]
      simp only [List.find?, e1, e2]
      exact ih h2

/-- Claim C1: on a table satisfying the uniqueness invariant, the Action
Resolver returns the exact `(k, with_shift = s)` entry first; when shift
is held and there is no exact match it falls back to the `(k, false)`
entry unless that entry's action is `InputSource` or `Command`, and
returns no action otherwise (in particular when no entry exists at
all) — i.e. `resolve_action_mapping` coincides with the spec-level
resolver. -/
theorem claim_C1_resolver_precedence (l : List ActionMappingEntry)
    (k : Nat) (s : Bool) (h : pair_unique l) :
    resolve_action_mapping l k s = resolve_action_mapping_spec l k s := by
  unfold resolve_action_mapping resolve_action_mapping_spec
  cases hex : l.find? (fun m => m.key == k && m.with_shift == s) with
  | some e => rfl
  | none =>
    cases s with
    | false => simp
    | true => simp [find_fallback_eq k h]

/-- Witness for C1 at a concrete table and key: the fallback is taken for
a `Directional` entry and the blocked fallback for an `InputSource`
entry follows the same theorem. -/
theorem claim_C1_resolver_precedence_witness :
    resolve_action_mapping
        [⟨72, false, .Directional .Left⟩, ⟨188, false, .InputSource "abc"⟩] 72 true =
      resolve_action_mapping_spec
        [⟨72, false, .Directional .Left⟩, ⟨188, false, .InputSource "abc"⟩] 72 true :=
  claim_C1_resolver_precedence _ 72 true (by
    constructor
    · intro b hb
      simp only [List.mem_singleton] at hb
      subst hb
      simp
    · simp [pair_unique])

/-! ## Claim C4 — upsert replaces in place or appends -/

/-- Claim C4: upserting an entry whose `(key, with_shift)` pair is already
present replaces the first such entry in place (the table is the original
with only that position overwritten, so the length is unchanged) and
reports `changed` exactly when the stored entry differed from the new one;
upserting a fresh pair appends the entry at the end and always reports
`changed`. -/
theorem claim_C4_upsert_in_vec (l : List ActionMappingEntry)
    (e : ActionMappingEntry) :
    (∀ m, l.find? (fun m => m.key == e.key && m.with_shift == e.with_shift) = some m →
      (upsert_action_mapping_in_vec l e).1 = replace_first_matching l e ∧
      (upsert_action_mapping_in_vec l e).1.length = l.length ∧
      ((upsert_action_mapping_in_vec l e).2 = true ↔ m ≠ e))
    ∧ (l.find? (fun m => m.key == e.key && m.with_shift == e.with_shift) = none →
      (upsert_action_mapping_in_vec l e).1 = l ++ [e] ∧
      (upsert_action_mapping_in_vec l e).2 = true) := by
  induction l with
  | nil =>
    constructor
    · intro m hm
      simp at hm
    · intro _
      simp [upsert_action_mapping_in_vec]
  | cons a t ih =>
    by_cases hp : a.key = e.key ∧ a.with_shift = e.with_shift
    · have hpair : (a.key == e.key && a.with_shift == e.with_shift) = true := by
        simp [hp.1, hp.2]
      constructor
      · intro m hm
        simp only [List.find?, hpair] at hm
        have hma : m = a := by
          injection hm with hm
          exact hm.symm
        subst hma
        by_cases hme : m = e
        · subst hme
          simp [upsert_action_mapping_in_vec, replace_first_matching, hp.1, hp.2]
        · simp [upsert_action_mapping_in_vec, replace_first_matching, hp.1, hp.2, hme]
      · intro hnone
        simp only [List.find?, hpair] at hnone
        cases hnone
    · have hpair : (a.key == e.key && a.with_shift == e.with_shift) = false := by
        rcases not_and_or.mp hp with hx | hx <;> simp [hx]
      have hstep : upsert_action_mapping_in_vec (a :: t) e =
          (a :: (upsert_action_mapping_in_vec t e).1,
           (upsert_action_mapping_in_vec t e).2) := by
        simp [upsert_action_mapping_in_vec, hp]
      constructor
      · intro m hm
        simp only [List.find?, hpair] at hm
        rcases ih.1 m hm with ⟨hr, hlen, hch⟩
        refine ⟨?_, ?_, ?_⟩
        · rw [hstep]
          simp [replace_first_matching, hp, hr]
        · rw [hstep]
          simp [hlen]
        · rw [hstep]
          exact hch
      · intro hnone
        simp only [List.find?, hpair] at hnone
        rcases ih.2 hnone with ⟨hr, hch⟩
        rw [hstep]
        simp [hr, hch]

/-- Witness for C4 at concrete tables: replacing an existing `(65, false)`
binding and appending a fresh `(66, false)` binding. -/
theorem claim_C4_upsert_in_vec_witness :
    (upsert_action_mapping_in_vec [⟨65, false, .Directional .Left⟩]
        ⟨65, false, .Directional .Right⟩).1 =
      replace_first_matching [⟨65, false, .Directional .Left⟩]
        ⟨65, false, .Directional .Right⟩ ∧
    (upsert_action_mapping_in_vec [⟨65, false, .Directional .Left⟩]
        ⟨66, false, .Directional .Up⟩).1 =
      [⟨65, false, .Directional .Left⟩] ++ [⟨66, false, .Directional .Up⟩] := by
  constructor
  · exact ((claim_C4_upsert_in_vec [⟨65, false, .Directional .Left⟩]
      ⟨65, false, .Directional .Right⟩).1 ⟨65, false, .Directional .Left⟩ (by decide)).1
  · exact ((claim_C4_upsert_in_vec [⟨65, false, .Directional .Left⟩]
      ⟨66, false, .Directional .Up⟩).2 (by decide)).1

/-! ## Claim C10 — legacy input-source removal -/

/-- Claim C10: on a table satisfying the uniqueness invariant,
`remove_input_source_mapping k` removes the `(k, with_shift = false)`
entry exactly when that entry's action is an `InputSource`; when the
`(k, false)` entry holds any other action kind, or no `(k, false)` entry
exists, the table is left completely unchanged. -/
theorem claim_C10_remove_input_source (l : List ActionMappingEntry)
    (k : Nat) (h : pair_unique l) :
    (l.find? (fun m => m.key == k && m.with_shift == false) = none →
      remove_input_source_mapping l k = l)
    ∧ (∀ m, l.find? (fun m => m.key == k && m.with_shift == false) = some m →
        (is_input_source_action m.action = false →
          remove_input_source_mapping l k = l)
        ∧ (is_input_source_action m.action = true →
          remove_input_source_mapping l k =
            l.filter (fun x => !(x.key == k && x.with_shift == false)) ∧
          m ∉ remove_input_source_mapping l k ∧
          ∀ x ∈ l, x ≠ m → x ∈ remove_input_source_mapping l k)) := by
  constructor
  · intro hnone
    have hforall := List.find?_eq_none.mp hnone
    have hany : l.any (fun m =>
        m.key == k && !m.with_shift && is_input_source_action m.action) = false := by
      rw [Bool.eq_false_iff]
      intro hx
      rcases List.any_eq_true.mp hx with ⟨b, hb, hbp⟩
      simp only [Bool.and_eq_true, beq_iff_eq, Bool.not_eq_true'] at hbp
      exact hforall b hb (by simp [hbp.1.1, hbp.1.2])
    unfold remove_input_source_mapping
    rw [hany]
    simp
  · intro m hm
    have hmem : m ∈ l := List.mem_of_find?_eq_some hm
    have hmp := List.find?_some hm
    simp only [Bool.and_eq_true, beq_iff_eq] at hmp
    constructor
    · intro hni
      have hany : l.any (fun m =>
          m.key == k && !m.with_shift && is_input_source_action m.action) = false := by
        rw [Bool.eq_false_iff]
        intro hx
        rcases List.any_eq_true.mp hx with ⟨b, hb, hbp⟩
        simp only [Bool.and_eq_true, beq_iff_eq, Bool.not_eq_true'] at hbp
        have hbm : b = m :=
          pair_unique_eq h hb hmem (hbp.1.1.trans hmp.1.symm)
            (hbp.1.2.trans hmp.2.symm)
        rw [hbm, hni] at hbp
        exact Bool.false_ne_true hbp.2
      unfold remove_input_source_mapping
      rw [hany]
      simp
    · intro hi
      have hany : l.any (fun m =>
          m.key == k && !m.with_shift && is_input_source_action m.action) = true := by
        rw [List.any_eq_true]
        exact ⟨m, hmem, by simp [hmp.1, hmp.2, hi]⟩
      have hres : remove_input_source_mapping l k =
          l.filter (fun x => !(x.key == k && x.with_shift == false)) := by
        unfold remove_input_source_mapping remove_action_mapping_from_vec
        rw [hany]
        simp
      refine ⟨hres, ?_, ?_⟩
      · rw [hres]
        intro hin
        have := List.of_mem_filter hin
        simp [hmp.1, hmp.2] at this
      · intro x hx hxm
        rw [hres]
        apply List.mem_filter.mpr
        refine ⟨hx, ?_⟩
        have hxp : (x.key == k && x.with_shift == false) = false := by
          rw [Bool.eq_false_iff]
          intro htrue
          simp only [Bool.and_eq_true, beq_iff_eq] at htrue
          exact hxm (pair_unique_eq h hx hmem (htrue.1.trans hmp.1.symm)
            (htrue.2.trans hmp.2.symm))
        simp only [hxp]
        rfl

/-- Witness for C10 at concrete tables: an `InputSource` binding at
`(188, false)` is removed, while a `Directional` binding at `(72, false)`
blocks the removal. -/
theorem claim_C10_remove_input_source_witness :
    remove_input_source_mapping
        [⟨72, false, .Directional .Left⟩, ⟨188, false, .InputSource "abc"⟩] 188 =
      [⟨72, false, .Directional .Left⟩] ∧
    remove_input_source_mapping
        [⟨72, false, .Directional .Left⟩, ⟨188, false, .InputSource "abc"⟩] 72 =
      [⟨72, false, .Directional .Left⟩, ⟨188, false, .InputSource "abc"⟩] := by
  have hu : pair_unique
      [⟨72, false, .Directional .Left⟩, ⟨188, false, .InputSource "abc"⟩] := by
    constructor
    · intro b hb
      simp only [List.mem_singleton] at hb
      subst hb
      simp
    · simp [pair_unique]
  constructor
  · have h := ((claim_C10_remove_input_source
      [⟨72, false, .Directional .Left⟩, ⟨188, false, .InputSource "abc"⟩] 188 hu).2
        ⟨188, false, .InputSource "abc"⟩ (by decide)).2 (by decide)
    rw [h.1]
    decide
  · exact ((claim_C10_remove_input_source
      [⟨72, false, .Directional .Left⟩, ⟨188, false, .InputSource "abc"⟩] 72 hu).2
        ⟨72, false, .Directional .Left⟩ (by decide)).1 (by decide)

/-! ## Claim C5 — validation in the upsert command -/

/-- The upserted entry is always a member of the updated table. -/
theorem mem_upsert_self (l : List ActionMappingEntry) (e : ActionMappingEntry) :
    e ∈ (upsert_action_mapping_in_vec l e).1 := by
  induction l with
  | nil => simp [upsert_action_mapping_in_vec]
  | cons m t ih =>
    by_cases hp : m.key = e.key ∧ m.with_shift = e.with_shift
    · by_cases hme : m = e
      · simp [upsert_action_mapping_in_vec, hp, hme]
      · simp [upsert_action_mapping_in_vec, hp, hme]
    · simp only [upsert_action_mapping_in_vec, if_neg hp]
      exact List.mem_cons_of_mem m ih

/-- Every member of the updated table is an old member or the new entry. -/
theorem mem_upsert (l : List ActionMappingEntry) (e x : ActionMappingEntry)
    (hx : x ∈ (upsert_action_mapping_in_vec l e).1) : x ∈ l ∨ x = e := by
  induction l with
  | nil =>
    simp [upsert_action_mapping_in_vec] at hx
    exact Or.inr hx
  | cons m t ih =>
    by_cases hp : m.key = e.key ∧ m.with_shift = e.with_shift
    · by_cases hme : m = e
      · simp only [upsert_action_mapping_in_vec, if_pos hp,
          if_neg (fun hc : m ≠ e => hc hme)] at hx
        rcases List.mem_cons.mp hx with hxa | hxt
        · exact Or.inr (hxa.trans hme)
        · exact Or.inl (List.mem_cons_of_mem m hxt)
      · simp only [upsert_action_mapping_in_vec, if_pos hp, if_pos hme] at hx
        rcases List.mem_cons.mp hx with hxa | hxt
        · exact Or.inr hxa
        · exact Or.inl (List.mem_cons_of_mem m hxt)
    · simp only [upsert_action_mapping_in_vec, if_neg hp] at hx
      rcases List.mem_cons.mp hx with hxa | hxt
      · exact Or.inl (hxa ▸ List.mem_cons_self m t)
      · rcases ih hxt with hv | hv
        · exact Or.inl (List.mem_cons_of_mem m hv)
        · exact Or.inr hv

/-- Upserting preserves the uniqueness invariant. -/
theorem pair_unique_upsert (l : List ActionMappingEntry) (e : ActionMappingEntry)
    (h : pair_unique l) : pair_unique (upsert_action_mapping_in_vec l e).1 := by
  induction l with
  | nil => simp [upsert_action_mapping_in_vec, pair_unique]
  | cons m t ih =>
    rcases List.pairwise_cons.mp h with ⟨h1, h2⟩
    by_cases hp : m.key = e.key ∧ m.with_shift = e.with_shift
    · by_cases hme : m = e
      · simp only [upsert_action_mapping_in_vec, if_pos hp,
          if_neg (fun hc : m ≠ e => hc hme)]
        exact h
      · simp only [upsert_action_mapping_in_vec, if_pos hp, if_pos hme]
        apply List.pairwise_cons.mpr
        refine ⟨?_, h2⟩
        intro b hb
        intro hcon
        exact h1 b hb ⟨hp.1.trans hcon.1, hp.2.trans hcon.2⟩
    · simp only [upsert_action_mapping_in_vec, if_neg hp]
      apply List.pairwise_cons.mpr
      refine ⟨?_, ih h2⟩
      intro b hb
      rcases mem_upsert t e b hb with hv | hv
      · exact h1 b hv
      · intro hcon
        exact hp ⟨hcon.1.trans (congrArg ActionMappingEntry.key hv),
                  hcon.2.trans (congrArg ActionMappingEntry.with_shift hv)⟩

/-- On a table already satisfying the uniqueness invariant,
`normalize_action_mappings` is the identity. -/
theorem normalize_id (l : List ActionMappingEntry) (h : pair_unique l) :
    normalize_action_mappings l = l := by
  suffices hgen : ∀ (l acc : List ActionMappingEntry),
      (∀ a ∈ acc, ∀ b ∈ l, ¬(a.key = b.key ∧ a.with_shift = b.with_shift)) →
      pair_unique l →
      List.foldl
        (fun deduped entry =>
          if deduped.any (fun m => m.key == entry.key && m.with_shift == entry.with_shift) then
            deduped.map (fun m =>
              if m.key == entry.key && m.with_shift == entry.with_shift then entry else m)
          else deduped ++ [entry])
        acc l = acc ++ l by
    have := hgen l [] (by intro a ha; cases ha) h
    simpa [normalize_action_mappings] using this
  intro l
  induction l with
  | nil =>
    intro acc _ _
    simp
  | cons b t ih =>
    intro acc hdisj hu
    rcases List.pairwise_cons.mp hu with ⟨h1, h2⟩
    have hany : acc.any (fun m => m.key == b.key && m.with_shift == b.with_shift) = false := by
      rw [Bool.eq_false_iff]
      intro hx
      rcases List.any_eq_true.mp hx with ⟨a, ha, hap⟩
      simp only [Bool.and_eq_true, beq_iff_eq] at hap
      exact hdisj a ha b (List.mem_cons_self b t) hap
    simp only [List.foldl_cons, hany]
    have happ := ih (acc ++ [b])
      (by
        intro a ha c hc
        rcases List.mem_append.mp ha with hv | hv
        · exact hdisj a hv c (List.mem_cons_of_mem b hc)
        · have hab : a = b := by simpa using hv
          subst hab
          exact h1 c hc)
      h2
    rw [if_neg Bool.false_ne_true]
    rw [happ]
    simp

/-- Counterexample to claim C5 as stated: a `Command` whose text is a
single space is not the empty string, yet the upsert command rejects it
(the code validates with `trim().is_empty()`, not emptiness). -/
theorem claim_C5_counterexample : ¬upsert_errors_exactly_on_empty := by
  intro h
  have hiff := (h [] 72 false (.Command " ")).mp
    ⟨"command cannot be empty", rfl⟩
  rcases hiff with hc | hc | ⟨d, hc⟩
  · have : (" " : String) = "" := by injection hc
    exact absurd this (by decide)
  · cases hc
  · cases hc

/-- Claim C5 as amended: the upsert command errors exactly when the action
is a `Command` whose text trims to empty (is all whitespace), an
`InputSource` whose id trims to empty, or a `Jump` with count 0; an error
produces no table (the Rust command returns before touching the stored
table or the disk file); every accepted action yields a table that — when
the starting table satisfies the uniqueness invariant — contains the new
entry. -/
theorem claim_C5_upsert_validation (table : List ActionMappingEntry)
    (key : Nat) (ws : Bool) (action : ActionConfig) :
    ((∃ e, upsert_action_mapping table key ws action = .error e) ↔
      ((∃ c, action = .Command c ∧ trim_is_empty c = true) ∨
       (∃ i, action = .InputSource i ∧ trim_is_empty i = true) ∨
       (∃ d, action = .Jump d 0)))
    ∧ (∀ t', upsert_action_mapping table key ws action = .ok t' →
        pair_unique table → (⟨key, ws, action⟩ : ActionMappingEntry) ∈ t') := by
  constructor
  · constructor
    · rintro ⟨e, he⟩
      cases action with
      | Command c =>
        by_cases hc : trim_is_empty c = true
        · exact Or.inl ⟨c, rfl, hc⟩
        · rw [upsert_action_mapping] at he
          rw [if_neg hc] at he
          cases he
      | InputSource i =>
        by_cases hc : trim_is_empty i = true
        · exact Or.inr (Or.inl ⟨i, rfl, hc⟩)
        · rw [upsert_action_mapping] at he
          rw [if_neg hc] at he
          cases he
      | Jump d n =>
        by_cases hc : n = 0
        · exact Or.inr (Or.inr ⟨d, by rw [hc]⟩)
        · rw [upsert_action_mapping] at he
          rw [if_neg hc] at he
          cases he
      | Directional a =>
        rw [upsert_action_mapping] at he
        cases he
      | Independent a =>
        rw [upsert_action_mapping] at he
        cases he
    · rintro (⟨c, hac, hc⟩ | ⟨i, hac, hc⟩ | ⟨d, hac⟩)
      · subst hac
        exact ⟨"command cannot be empty", by rw [upsert_action_mapping, if_pos hc]⟩
      · subst hac
        exact ⟨"input_source_id cannot be empty", by rw [upsert_action_mapping, if_pos hc]⟩
      · subst hac
        exact ⟨"jump count must be >= 1", by rw [upsert_action_mapping, if_pos rfl]⟩
  · intro t' ht' hu
    have hmem : (⟨key, ws, action⟩ : ActionMappingEntry) ∈
        (upsert_action_mapping_in_vec table ⟨key, ws, action⟩).1 :=
      mem_upsert_self table ⟨key, ws, action⟩
    have hnorm : normalize_action_mappings
        (upsert_action_mapping_in_vec table ⟨key, ws, action⟩).1 =
        (upsert_action_mapping_in_vec table ⟨key, ws, action⟩).1 :=
      normalize_id _ (pair_unique_upsert table _ hu)
    have hok : t' = normalize_action_mappings
        (upsert_action_mapping_in_vec table ⟨key, ws, action⟩).1 := by
      cases action with
      | Command c =>
        rw [upsert_action_mapping] at ht'
        by_cases hc : trim_is_empty c = true
        · rw [if_pos hc] at ht'
          cases ht'
        · rw [if_neg hc] at ht'
          injection ht' with ht'
          exact ht'.symm
      | InputSource i =>
        rw [upsert_action_mapping] at ht'
        by_cases hc : trim_is_empty i = true
        · rw [if_pos hc] at ht'
          cases ht'
        · rw [if_neg hc] at ht'
          injection ht' with ht'
          exact ht'.symm
      | Jump d n =>
        rw [upsert_action_mapping] at ht'
        by_cases hc : n = 0
        · rw [if_pos hc] at ht'
          cases ht'
        · rw [if_neg hc] at ht'
          injection ht' with ht'
          exact ht'.symm
      | Directional a =>
        rw [upsert_action_mapping] at ht'
        injection ht' with ht'
        exact ht'.symm
      | Independent a =>
        rw [upsert_action_mapping] at ht'
        injection ht' with ht'
        exact ht'.symm
    rw [hok, hnorm]
    exact hmem

/-- Witness for C5 at concrete inputs: a whitespace-only command is
rejected, and an accepted directional action lands in the stored table. -/
theorem claim_C5_upsert_validation_witness :
    (∃ e, upsert_action_mapping [] 72 false (.Command " ") = .error e) ∧
    (⟨65, false, .Directional .Left⟩ : ActionMappingEntry) ∈
      normalize_action_mappings
        (upsert_action_mapping_in_vec [] ⟨65, false, .Directional .Left⟩).1 := by
  constructor
  · exact (claim_C5_upsert_validation [] 72 false (.Command " ")).1.mpr
      (Or.inl ⟨" ", rfl, by decide⟩)
  · exact (claim_C5_upsert_validation [] 65 false (.Directional .Left)).2
      (normalize_action_mappings
        (upsert_action_mapping_in_vec [] ⟨65, false, .Directional .Left⟩).1)
      rfl (by simp [pair_unique])

/-! ## Claim C3 — tap toggles, holds and remapped holds do not -/

/-- Claim C3: on macOS, pressing the Hyper key (F18) from the released
state records the press time and clears the remap flag; releasing it with
no remap performed toggles the native CapsLock exactly once when the held
duration is at most `CAPS_TAP_MAX_MS` (200 ms) and zero times otherwise;
and releasing from any held state in which a remap was performed never
toggles, regardless of duration. -/
theorem claim_C3_tap_toggle (table : Option (List ActionMappingEntry))
    (p0 t0 t1 : Nat) (r0 : Bool) (fl fl2 : ModFlags) (_h01 : t0 ≤ t1) :
    (macStep false table ⟨false, p0, r0⟩ t0 ⟨.keyDown, KC_F18, fl, 0⟩).1 =
      ⟨true, t0, false⟩
    ∧ ((macStep false table ⟨true, t0, false⟩ t1 ⟨.keyUp, KC_F18, fl2, 0⟩).2.2.toggle_caps =
        if t1 - t0 ≤ CAPS_TAP_MAX_MS then 1 else 0)
    ∧ (∀ st' : CapsState, st'.caps_down = true → st'.did_remap = true →
        ∀ (t2 : Nat) (fl3 : ModFlags),
          (macStep false table st' t2 ⟨.keyUp, KC_F18, fl3, 0⟩).2.2.toggle_caps = 0) := by
  refine ⟨?_, ?_, ?_⟩
  · simp [macStep, INJECTED_EVENT_MAGIC]
  · simp [macStep, INJECTED_EVENT_MAGIC, emptyMacEffects]
  · intro st' h1 h2 t2 fl3
    simp [macStep, INJECTED_EVENT_MAGIC, emptyMacEffects, h2]

/-- Witness for C3: a 100 ms tap with no remap toggles once; a 100 ms
hold with a remap performed toggles zero times. -/
theorem claim_C3_tap_toggle_witness :
    (macStep false none ⟨true, 0, false⟩ 100 ⟨.keyUp, KC_F18, noFlags, 0⟩).2.2.toggle_caps = 1
    ∧ (macStep false none ⟨true, 0, true⟩ 100 ⟨.keyUp, KC_F18, noFlags, 0⟩).2.2.toggle_caps = 0 := by
  have h := claim_C3_tap_toggle none 0 0 100 false noFlags noFlags (by decide)
  constructor
  · have h2 := h.2.1
    simpa using h2
  · exact h.2.2 ⟨true, 0, true⟩ rfl rfl 100 noFlags

/-! ## Claim C6 — the InsertQuotes macro -/

/-- Claim C6: executing `Independent.InsertQuotes` on a key-down edge
synthesizes exactly 6 quote-character insert events followed by exactly 3
left-arrow down+up taps, in that order (and nothing else), on both
platforms; on a key-up edge it synthesizes zero events. -/
theorem claim_C6_insert_quotes (m : ModFlags) :
    execute_action_mapping (.Independent .InsertQuotes) true m =
      { emptyMacEffects with
        posts :=
          [ .text "\"", .text "\"", .text "\"", .text "\"", .text "\"", .text "\"",
            .key KC_LEFT true noFlags, .key KC_LEFT false noFlags,
            .key KC_LEFT true noFlags, .key KC_LEFT false noFlags,
            .key KC_LEFT true noFlags, .key KC_LEFT false noFlags ] }
    ∧ execute_action_mapping (.Independent .InsertQuotes) false m = emptyMacEffects
    ∧ low_level_keyboard_proc false none false ⟨true, 0, false⟩ ⟨78, .keyDown, false⟩ =
        (⟨true, 0, true⟩, true,
          { emptyWinEffects with
            sends :=
              [ .unicode 34, .unicode 34, .unicode 34, .unicode 34, .unicode 34, .unicode 34,
                .key VK_LEFT false, .key VK_LEFT true,
                .key VK_LEFT false, .key VK_LEFT true,
                .key VK_LEFT false, .key VK_LEFT true ] })
    ∧ low_level_keyboard_proc false none false ⟨true, 0, false⟩ ⟨78, .keyUp, false⟩ =
        (⟨true, 0, true⟩, true, { emptyWinEffects with sends := [] }) := by
  refine ⟨rfl, rfl, by decide, by decide⟩

/-! ## Claim C7 — injected events are released untouched -/

/-- Claim C7: an event stamped with the injection marker is released
without any engine processing on both platforms: the `CapsState` fields
are untouched, no action is resolved or executed, no side effect is
produced and the event is passed through — even when its key code equals
the Hyper modifier key's code. -/
theorem claim_C7_injected_untouched (paused : Bool)
    (table : Option (List ActionMappingEntry)) (st : CapsState) (now : Nat)
    (ev : MacEvent) (shell : Option (List (Nat × String))) (shift_down : Bool)
    (stw : CapsState) (evw : WinEvent) :
    (ev.user_data = INJECTED_EVENT_MAGIC →
      (ev.etype = .keyDown ∨ ev.etype = .keyUp ∨ ev.etype = .flagsChanged) →
      macStep paused table st now ev = (st, false, emptyMacEffects))
    ∧ (evw.injected = true →
      low_level_keyboard_proc paused shell shift_down stw evw =
        (stw, false, emptyWinEffects)) := by
  constructor
  · intro hmagic htype
    have hdis : ¬(ev.etype = .tapDisabledByTimeout ∨ ev.etype = .tapDisabledByUserInput) := by
      rcases htype with h | h | h <;> rw [h] <;> rintro (hc | hc) <;> cases hc
    unfold macStep
    rw [if_neg hdis, if_pos hmagic]
  · intro hinj
    unfold low_level_keyboard_proc
    by_cases hp : paused
    · rw [if_pos hp]
    · rw [if_neg hp, if_pos hinj]

/-- Witness for C7: an injected synthetic event whose key code equals the
modifier key's own code (F18 on macOS, CapsLock on Windows) passes
through with no state change. -/
theorem claim_C7_injected_untouched_witness :
    macStep false (some (default_action_mappings true)) ⟨false, 0, false⟩ 5
        ⟨.keyDown, KC_F18, noFlags, INJECTED_EVENT_MAGIC⟩ =
      (⟨false, 0, false⟩, false, emptyMacEffects)
    ∧ low_level_keyboard_proc false none false ⟨false, 0, false⟩
        ⟨VK_CAPITAL, .keyDown, true⟩ =
      (⟨false, 0, false⟩, false, emptyWinEffects) := by
  have h := claim_C7_injected_untouched false (some (default_action_mappings true))
    ⟨false, 0, false⟩ 5 ⟨.keyDown, KC_F18, noFlags, INJECTED_EVENT_MAGIC⟩
    none false ⟨false, 0, false⟩ ⟨VK_CAPITAL, .keyDown, true⟩
  exact ⟨h.1 rfl (Or.inl rfl), h.2 rfl⟩

/-! ## Claim C9 — the CapsState invariant along hook steps -/

/-- The macOS callback changes the `CapsState` in one of five ways:
not at all; re-asserting `caps_down` on an auto-repeated press; a fresh
press (recording `now`, clearing the remap flag); a release (clearing the
timestamp); or marking a remap, which only happens while held. -/
theorem macStep_state_cases (paused : Bool)
    (table : Option (List ActionMappingEntry)) (st : CapsState) (now : Nat)
    (ev : MacEvent) :
    (macStep paused table st now ev).1 = st ∨
    ((macStep paused table st now ev).1 = { st with caps_down := true } ∧
      st.caps_down = true) ∨
    ((macStep paused table st now ev).1 = ⟨true, now, false⟩ ∧
      st.caps_down = false) ∨
    (macStep paused table st now ev).1 =
      { st with caps_down := false, caps_pressed_at_ms := 0 } ∨
    ((macStep paused table st now ev).1 = { st with did_remap := true } ∧
      st.caps_down = true) := by
  unfold macStep
  split_ifs with h1 h2 h3 h4 h5 h6 h7 h8 h9
  · exact Or.inl rfl
  · exact Or.inl rfl
  · exact Or.inl rfl
  · exact Or.inr (Or.inl ⟨rfl, h6⟩)
  · refine Or.inr (Or.inr (Or.inl ⟨rfl, ?_⟩))
    simpa using h6
  · exact Or.inr (Or.inr (Or.inr (Or.inl rfl)))
  · exact Or.inl rfl
  · exact Or.inl rfl
  · cases hjs : mac_keycode_to_js_keycode ev.keycode with
    | none => exact Or.inl rfl
    | some js =>
      dsimp only
      cases hres : resolve_action_mapping_opt table js ev.flags.shift with
      | none => exact Or.inl rfl
      | some mapping =>
        exact Or.inr (Or.inr (Or.inr (Or.inr ⟨rfl, h9⟩)))
  · exact Or.inl rfl

/-- The Windows callback changes the `CapsState` in one of four ways:
not at all; a press (clearing the remap flag); a release; or marking a
remap, which only happens while held.  It never touches the press
timestamp. -/
theorem win_state_cases (paused : Bool) (shell : Option (List (Nat × String)))
    (shift_down : Bool) (st : CapsState) (ev : WinEvent) :
    (low_level_keyboard_proc paused shell shift_down st ev).1 = st ∨
    (low_level_keyboard_proc paused shell shift_down st ev).1 =
      { st with caps_down := true, did_remap := false } ∨
    (low_level_keyboard_proc paused shell shift_down st ev).1 =
      { st with caps_down := false } ∨
    ((low_level_keyboard_proc paused shell shift_down st ev).1 =
      { st with did_remap := true } ∧ st.caps_down = true) := by
  unfold low_level_keyboard_proc
  by_cases h1 : paused = true
  · rw [if_pos h1]
    exact Or.inl rfl
  rw [if_neg h1]
  by_cases h2 : ev.injected = true
  · rw [if_pos h2]
    exact Or.inl rfl
  rw [if_neg h2]
  by_cases h3 : ev.vk = VK_CAPITAL ∧ (ev.msg = .keyDown ∨ ev.msg = .sysKeyDown)
  · rw [if_pos h3]
    exact Or.inr (Or.inl rfl)
  rw [if_neg h3]
  by_cases h4 : ev.vk = VK_CAPITAL ∧ (ev.msg = .keyUp ∨ ev.msg = .sysKeyUp)
  · rw [if_pos h4]
    exact Or.inr (Or.inr (Or.inl rfl))
  rw [if_neg h4]
  by_cases h5 : st.caps_down = true
  · rw [if_pos h5]
    cases hsh : (if shift_down = true ∧ (ev.msg = .keyDown ∨ ev.msg = .sysKeyDown) then
        lookup_shell shell ev.vk else none) with
    | some command =>
      dsimp only
      exact Or.inr (Or.inr (Or.inr ⟨rfl, h5⟩))
    | none =>
      dsimp only
      cases hsend : win_key_sends ev.vk
          (decide (ev.msg = .keyUp ∨ ev.msg = .sysKeyUp))
          (decide (ev.msg = .keyDown ∨ ev.msg = .sysKeyDown)) with
      | some sends =>
        dsimp only
        exact Or.inr (Or.inr (Or.inr ⟨rfl, h5⟩))
      | none => exact Or.inl rfl
  · rw [if_neg h5]
    exact Or.inl rfl

/-- Counterexample to claim C9 as stated ("on every platform"): on
Windows, pressing CapsLock takes `held` from false to true but the
callback never writes `pressed_at` — the timestamp stays cleared. -/
theorem claim_C9_counterexample : ¬win_pressed_at_set_on_press := by
  intro h
  exact h false none false ⟨false, 0, false⟩ ⟨VK_CAPITAL, .keyDown, false⟩
    rfl (by decide) rfl

/-- Claim C9 as amended: on macOS the full invariant holds on every
processed event — `pressed_at` is set to the current time exactly when
`held` transitions false→true (with `did_remap` reset), is cleared on
release, and `did_remap` may only become true while `held`.  On Windows
the same holds for `held`/`did_remap`, but `pressed_at` is never written
at all (the Windows hook tracks no duration). -/
theorem claim_C9_caps_state_invariant (paused : Bool)
    (table : Option (List ActionMappingEntry)) (st : CapsState) (now : Nat)
    (ev : MacEvent) (shell : Option (List (Nat × String)))
    (shift_down : Bool) (stw : CapsState) (evw : WinEvent) :
    ((st.caps_down = false → ((macStep paused table st now ev).1).caps_down = true →
        ((macStep paused table st now ev).1).caps_pressed_at_ms = now ∧
        ((macStep paused table st now ev).1).did_remap = false)
     ∧ (st.caps_down = true → ((macStep paused table st now ev).1).caps_down = false →
        ((macStep paused table st now ev).1).caps_pressed_at_ms = 0)
     ∧ (st.did_remap = false → ((macStep paused table st now ev).1).did_remap = true →
        st.caps_down = true))
    ∧ (((low_level_keyboard_proc paused shell shift_down stw evw).1).caps_pressed_at_ms =
        stw.caps_pressed_at_ms
     ∧ (stw.caps_down = false →
        ((low_level_keyboard_proc paused shell shift_down stw evw).1).caps_down = true →
        ((low_level_keyboard_proc paused shell shift_down stw evw).1).did_remap = false)
     ∧ (stw.did_remap = false →
        ((low_level_keyboard_proc paused shell shift_down stw evw).1).did_remap = true →
        stw.caps_down = true)) := by
  constructor
  · rcases macStep_state_cases paused table st now ev with
      h | ⟨h, hc⟩ | ⟨h, hc⟩ | h | ⟨h, hc⟩ <;>
      rw [h] <;>
      refine ⟨?_, ?_, ?_⟩ <;> (intros; simp_all)
  · rcases win_state_cases paused shell shift_down stw evw with
      h | h | h | ⟨h, hc⟩ <;>
      rw [h] <;>
      refine ⟨?_, ?_, ?_⟩ <;> (intros; simp_all)

/-- Witness for C9 (amended): a fresh macOS press at time 5 records the
timestamp and clears the remap flag; the matching Windows press leaves
the timestamp untouched. -/
theorem claim_C9_caps_state_invariant_witness :
    ((macStep false none ⟨false, 0, false⟩ 5 ⟨.keyDown, KC_F18, noFlags, 0⟩).1).caps_pressed_at_ms = 5
    ∧ ((low_level_keyboard_proc false none false ⟨false, 7, false⟩
        ⟨VK_CAPITAL, .keyDown, false⟩).1).caps_pressed_at_ms = 7 := by
  have h := claim_C9_caps_state_invariant false none ⟨false, 0, false⟩ 5
    ⟨.keyDown, KC_F18, noFlags, 0⟩ none false ⟨false, 7, false⟩
    ⟨VK_CAPITAL, .keyDown, false⟩
  constructor
  · exact (h.1.1 rfl (by decide)).1
  · exact h.2.1

/-! ## Claim C2 — the two callbacks against the same mapping table -/

/-- Counterexample to claim C2 as stated: remap `H` (key 72) to
`Directional Right` in the table.  While Hyper is held, the macOS
callback resolves and synthesizes a Right arrow; the Windows callback
ignores the table — its `H` arm is hardcoded — and still synthesizes a
Left arrow.  The two callbacks do not make the same decision against the
same mapping table. -/
theorem claim_C2_counterexample : ¬callbacks_agree_on_every_table := by
  intro h
  have hd := h ((upsert_action_mapping_in_vec (default_action_mappings false)
    ⟨72, false, .Directional .Right⟩).1) 72 false true
  exact absurd hd (by decide)

/-- Claim C2 as amended: with the default (Windows) mapping table and the
shell-command mirror synced from it, the two callbacks agree for every
key, every shift state and every edge: the key is swallowed on one
platform exactly when it is swallowed on the other, and the implemented
action (at the `ActionConfig` level of abstraction) is the same.  For a
modified table the Windows callback, whose per-key arms are hardcoded,
can diverge (see the counterexample). -/
theorem claim_C2_default_table_agreement (k : Nat) (s d : Bool) :
    win_remap_action (sync_shell_mappings (default_action_mappings false)) k s d =
      mac_remap_action (default_action_mappings false) k s := by
  show win_remap_action [] k s d = mac_remap_action (default_action_mappings false) k s
  have hwin : win_remap_action [] k s d = win_hardcoded_action k := by
    unfold win_remap_action lookup_shell
    split_ifs <;> rfl
  rw [hwin]
  by_cases h72 : k = 72
  · subst h72; cases s <;> rfl
  by_cases h74 : k = 74
  · subst h74; cases s <;> rfl
  by_cases h75 : k = 75
  · subst h75; cases s <;> rfl
  by_cases h76 : k = 76
  · subst h76; cases s <;> rfl
  by_cases h80 : k = 80
  · subst h80; cases s <;> rfl
  by_cases h89 : k = 89
  · subst h89; cases s <;> rfl
  by_cases h65 : k = 65
  · subst h65; cases s <;> rfl
  by_cases h69 : k = 69
  · subst h69; cases s <;> rfl
  by_cases h85 : k = 85
  · subst h85; cases s <;> rfl
  by_cases h68 : k = 68
  · subst h68; cases s <;> rfl
  by_cases h73 : k = 73
  · subst h73; cases s <;> rfl
  by_cases h78 : k = 78
  · subst h78; cases s <;> rfl
  by_cases h79 : k = 79
  · subst h79; cases s <;> rfl
  have hmac : resolve_action_mapping (default_action_mappings false) k s = none := by
    apply resolve_none_of_not_mem
    intro m hm
    simp only [default_action_mappings, List.append_nil, if_neg Bool.false_ne_true,
      List.mem_cons, List.not_mem_nil, or_false] at hm
    rcases hm with h | h | h | h | h | h | h | h | h | h | h | h | h <;>
      (rw [h]; intro hk; simp at hk; omega)
  have hhard : win_hardcoded_action k = none := by
    unfold win_hardcoded_action
    split_ifs
    rfl
  rw [hhard]
  unfold mac_remap_action
  rw [hmac]
  rfl

/-! ## Claim C8 — YAML round trip -/

/-- `digit_char` always lands in the digit range. -/
theorem digit_char_isDigit (d : Nat) : (digit_char d).isDigit = true := by
  unfold digit_char
  split_ifs <;> decide

/-- Reading back a rendered digit. -/
theorem char_digit_digit_char {d : Nat} (h : d < 10) :
    (digit_char d).toNat - 48 = d := by
  interval_cases d <;> decide

/-- A digit character is not a newline. -/
theorem ne_nl_of_isDigit {c : Char} (h : c.isDigit = true) :
    c ≠ Char.ofNat 10 := by
  intro hc
  subst hc
  exact absurd h (by decide)

/-- Every character produced by the decimal rendering worker is a
digit. -/
theorem nat_digits_aux_isDigit :
    ∀ (fuel n : Nat), ∀ c ∈ nat_digits_aux fuel n, c.isDigit = true := by
  intro fuel
  induction fuel with
  | zero =>
    intro n c hc
    cases hc
  | succ f ih =>
    intro n c hc
    rw [nat_digits_aux] at hc
    by_cases hn : n = 0
    · rw [if_pos hn] at hc
      cases hc
    · rw [if_neg hn] at hc
      rcases List.mem_append.mp hc with h | h
      · exact ih _ c h
      · have : c = digit_char (n % 10) := by simpa using h
        rw [this]
        exact digit_char_isDigit _

/-- Every character of a rendered decimal number is a digit. -/
theorem nat_digit_chars_isDigit (n : Nat) :
    ∀ c ∈ nat_digit_chars n, c.isDigit = true := by
  intro c hc
  unfold nat_digit_chars at hc
  by_cases hn : n = 0
  · rw [if_pos hn] at hc
    have : c = Char.ofNat 48 := by simpa using hc
    rw [this]
    decide
  · rw [if_neg hn] at hc
    exact nat_digits_aux_isDigit n n c hc

/-- A rendered decimal number is never empty. -/
theorem nat_digit_chars_ne_nil (n : Nat) : nat_digit_chars n ≠ [] := by
  unfold nat_digit_chars
  by_cases hn : n = 0
  · rw [if_pos hn]
    simp
  · rw [if_neg hn]
    rcases n with _ | m
    · exact absurd rfl hn
    · rw [nat_digits_aux, if_neg hn]
      simp

/-- Folding the decimal-value accumulator over the rendered digits of `n`
recovers `n` (shifted by the accumulator). -/
theorem nat_digits_aux_foldl :
    ∀ (n fuel acc : Nat), n ≤ fuel →
    List.foldl (fun acc c => acc * 10 + (c.toNat - 48)) acc (nat_digits_aux fuel n) =
      acc * 10 ^ (nat_digits_aux fuel n).length + n := by
  intro n
  induction n using Nat.strong_induction_on with
  | _ n ih =>
    intro fuel acc hfuel
    cases fuel with
    | zero =>
      have hn : n = 0 := Nat.le_zero.mp hfuel
      subst hn
      simp [nat_digits_aux]
    | succ f =>
      rw [nat_digits_aux]
      by_cases hn : n = 0
      · rw [if_pos hn]
        simp [hn]
      · rw [if_neg hn]
        have hlt : n / 10 < n := Nat.div_lt_self (Nat.pos_of_ne_zero hn) (by norm_num)
        have hle : n / 10 ≤ f := by omega
        rw [List.foldl_append, ih (n / 10) hlt f acc hle, List.length_append]
        simp only [List.foldl_cons, List.foldl_nil, List.length_singleton]
        rw [char_digit_digit_char (Nat.mod_lt _ (by norm_num))]
        calc (acc * 10 ^ (nat_digits_aux f (n / 10)).length + n / 10) * 10 + n % 10
            = acc * (10 ^ (nat_digits_aux f (n / 10)).length * 10) +
                ((n / 10) * 10 + n % 10) := by ring
          _ = acc * 10 ^ ((nat_digits_aux f (n / 10)).length + 1) + n := by
              rw [pow_succ]
              congr 1
              omega

/-- Round trip of the decimal rendering. -/
theorem digits_value_nat_digit_chars (n : Nat) :
    digits_value (nat_digit_chars n) = n := by
  unfold digits_value nat_digit_chars
  by_cases hn : n = 0
  · rw [if_pos hn]
    subst hn
    decide
  · rw [if_neg hn]
    have h := nat_digits_aux_foldl n n 0 (le_refl n)
    simpa using h

/-- Stripping a prefix that is literally there. -/
theorem dropPre_append (p r : List Char) : dropPre p (p ++ r) = some r := by
  induction p with
  | nil => rfl
  | cons c cs ih =>
    simp [dropPre, ih]

/-- Scanning the escaped body of a single-quoted scalar recovers the
original characters. -/
theorem scan_quoted_escape (s : List Char) :
    scan_quoted (escape_squotes s ++ [squote]) = some s := by
  induction s with
  | nil => decide
  | cons c cs ih =>
    by_cases hc : c = squote
    · subst hc
      simp [escape_squotes, scan_quoted, ih]
    · rw [escape_squotes, if_neg hc, List.cons_append]
      cases hesc : escape_squotes cs ++ [squote] with
      | nil => exact absurd hesc (by simp)
      | cons c2 rest2 =>
        rw [hesc] at ih
        simp [scan_quoted, hc, ih]

/-- Round trip of `yaml_quote` through the modelled scalar parsing. -/
theorem parse_quoted_yaml_quote (s : String) :
    parse_quoted (yaml_quote s) = some s.data := by
  unfold yaml_quote parse_quoted
  simp [scan_quoted_escape]

/-- `takeWhile` runs past a block of satisfying characters. -/
theorem takeWhile_all_append (p : Char → Bool) (ds rest : List Char)
    (h : ∀ c ∈ ds, p c = true) :
    (ds ++ rest).takeWhile p = ds ++ rest.takeWhile p := by
  induction ds with
  | nil => simp
  | cons c cs ih =>
    have hc : p c = true := h c (List.mem_cons_self c cs)
    rw [List.cons_append, List.takeWhile_cons, hc]
    rw [ih (fun x hx => h x (List.mem_cons_of_mem c hx))]
    rfl

/-- `dropWhile` runs past a block of satisfying characters. -/
theorem dropWhile_all_append (p : Char → Bool) (ds rest : List Char)
    (h : ∀ c ∈ ds, p c = true) :
    (ds ++ rest).dropWhile p = rest.dropWhile p := by
  induction ds with
  | nil => simp
  | cons c cs ih =>
    have hc : p c = true := h c (List.mem_cons_self c cs)
    rw [List.cons_append, List.dropWhile_cons, hc]
    rw [ih (fun x hx => h x (List.mem_cons_of_mem c hx))]
    simp

/-- `takeWhile` stops at an unsatisfying head. -/
theorem takeWhile_head_false (p : Char → Bool) (c : Char) (cs : List Char)
    (h : p c = false) : (c :: cs).takeWhile p = [] := by
  rw [List.takeWhile_cons, h]
  rfl

/-- `dropWhile` stops at an unsatisfying head. -/
theorem dropWhile_head_false (p : Char → Bool) (c : Char) (cs : List Char)
    (h : p c = false) : (c :: cs).dropWhile p = c :: cs := by
  rw [List.dropWhile_cons, h]
  rfl

/-- Reading a rendered number followed by a non-digit remainder. -/
theorem parse_nat_field_render (n : Nat) (rest : List Char)
    (hrest : rest.takeWhile Char.isDigit = [] ∧
             rest.dropWhile Char.isDigit = rest) :
    parse_nat_field (nat_digit_chars n ++ rest) = some (n, rest) := by
  unfold parse_nat_field
  rw [takeWhile_all_append _ _ _ (nat_digit_chars_isDigit n), hrest.1,
      dropWhile_all_append _ _ _ (nat_digit_chars_isDigit n), hrest.2]
  rw [List.append_nil]
  rw [if_neg (by simpa using nat_digit_chars_ne_nil n)]
  rw [digits_value_nat_digit_chars]

/-- Parsing the rendered `- key:` line recovers the key. -/
theorem parse_key_line_render (key : Nat) :
    parse_key_line ("- key: ".data ++ nat_digit_chars key ++ " # ".data ++
      js_keycode_name key) = some key := by
  unfold parse_key_line
  rw [List.append_assoc, List.append_assoc, dropPre_append]
  have hfield : parse_nat_field (nat_digit_chars key ++
      (" # ".data ++ js_keycode_name key)) =
      some (key, " # ".data ++ js_keycode_name key) := by
    apply parse_nat_field_render
    constructor
    · rfl
    · rfl
  rw [Option.bind_eq_bind, Option.some_bind, hfield]
  rfl

/-- Parsing the rendered `  with_shift:` line recovers the flag. -/
theorem parse_with_shift_line_render (ws : Bool) :
    parse_with_shift_line ("  with_shift: ".data ++
      (if ws then "true".data else "false".data)) = some ws := by
  cases ws <;> decide

/-- Splitting after a newline-free line. -/
theorem split_on_nl_append (l r : List Char)
    (h : ∀ c ∈ l, c ≠ Char.ofNat 10) :
    split_on_nl (l ++ Char.ofNat 10 :: r) = l :: split_on_nl r := by
  induction l with
  | nil =>
    rw [List.nil_append, split_on_nl, if_pos rfl]
  | cons c cs ih =>
    have hc : ¬c = Char.ofNat 10 := h c (List.mem_cons_self c cs)
    rw [List.cons_append, split_on_nl, if_neg hc,
        ih (fun x hx => h x (List.mem_cons_of_mem c hx))]

/-- Splitting the joined lines (with the final newline) recovers the
lines, plus one empty trailing line. -/
theorem split_on_nl_join (ls : List (List Char)) (hne : ls ≠ [])
    (h : ∀ l ∈ ls, ∀ c ∈ l, c ≠ Char.ofNat 10) :
    split_on_nl (join_with_nl ls ++ [Char.ofNat 10]) = ls ++ [[]] := by
  induction ls with
  | nil => exact absurd rfl hne
  | cons l ls ih =>
    cases ls with
    | nil =>
      rw [join_with_nl]
      rw [show l ++ [Char.ofNat 10] = l ++ Char.ofNat 10 :: [] from rfl]
      rw [split_on_nl_append l [] (h l (List.mem_cons_self l []))]
      rfl
    | cons l2 ls2 =>
      rw [show join_with_nl (l :: l2 :: ls2) =
            l ++ Char.ofNat 10 :: join_with_nl (l2 :: ls2) from rfl,
          List.append_assoc, List.cons_append]
      rw [split_on_nl_append l _ (h l (List.mem_cons_self l (l2 :: ls2)))]
      rw [ih (List.cons_ne_nil l2 ls2) (fun x hx => h x (List.mem_cons_of_mem l hx))]
      rfl

/-- The name rendered into the key comment never contains a newline. -/
theorem js_keycode_name_ne_nl (key : Nat) :
    ∀ c ∈ js_keycode_name key, c ≠ Char.ofNat 10 := by
  intro c hc
  unfold js_keycode_name at hc
  by_cases h1 : 48 ≤ key ∧ key ≤ 57
  · rw [if_pos h1] at hc
    have hce : c = Char.ofNat key := by simpa using hc
    rw [hce]
    rcases h1 with ⟨ha, hb⟩
    interval_cases key <;> decide
  rw [if_neg h1] at hc
  by_cases h2 : 65 ≤ key ∧ key ≤ 90
  · rw [if_pos h2] at hc
    have hce : c = Char.ofNat key := by simpa using hc
    rw [hce]
    rcases h2 with ⟨ha, hb⟩
    interval_cases key <;> decide
  rw [if_neg h2] at hc
  by_cases h3 : key = 8
  · rw [if_pos h3] at hc
    fin_cases hc <;> decide
  rw [if_neg h3] at hc
  by_cases h4 : key = 13
  · rw [if_pos h4] at hc
    fin_cases hc <;> decide
  rw [if_neg h4] at hc
  by_cases h5 : key = 37
  · rw [if_pos h5] at hc
    fin_cases hc <;> decide
  rw [if_neg h5] at hc
  by_cases h6 : key = 38
  · rw [if_pos h6] at hc
    fin_cases hc <;> decide
  rw [if_neg h6] at hc
  by_cases h7 : key = 39
  · rw [if_pos h7] at hc
    fin_cases hc <;> decide
  rw [if_neg h7] at hc
  by_cases h8 : key = 40
  · rw [if_pos h8] at hc
    fin_cases hc <;> decide
  rw [if_neg h8] at hc
  by_cases h9 : key = 186
  · rw [if_pos h9] at hc
    fin_cases hc <;> decide
  rw [if_neg h9] at hc
  by_cases h10 : key = 187
  · rw [if_pos h10] at hc
    fin_cases hc <;> decide
  rw [if_neg h10] at hc
  by_cases h11 : key = 188
  · rw [if_pos h11] at hc
    fin_cases hc <;> decide
  rw [if_neg h11] at hc
  by_cases h12 : key = 189
  · rw [if_pos h12] at hc
    fin_cases hc <;> decide
  rw [if_neg h12] at hc
  by_cases h13 : key = 190
  · rw [if_pos h13] at hc
    fin_cases hc <;> decide
  rw [if_neg h13] at hc
  by_cases h14 : key = 191
  · rw [if_pos h14] at hc
    fin_cases hc <;> decide
  rw [if_neg h14] at hc
  by_cases h15 : key = 220
  · rw [if_pos h15] at hc
    fin_cases hc <;> decide
  rw [if_neg h15] at hc
  by_cases h16 : key = 222
  · rw [if_pos h16] at hc
    fin_cases hc <;> decide
  rw [if_neg h16] at hc
  rcases List.mem_append.mp hc with hv | hv
  · fin_cases hv <;> decide
  · exact ne_nl_of_isDigit (nat_digit_chars_isDigit key c hv)

/-- Escaping preserves newline-freeness. -/
theorem escape_squotes_ne_nl (l : List Char)
    (hl : ∀ c ∈ l, c ≠ Char.ofNat 10) :
    ∀ c ∈ escape_squotes l, c ≠ Char.ofNat 10 := by
  induction l with
  | nil =>
    intro c hc
    cases hc
  | cons x xs ih =>
    intro c hc
    by_cases hx : x = squote
    · subst hx
      simp only [escape_squotes, if_pos rfl] at hc
      rcases List.mem_cons.mp hc with h | h
      · rw [h]; decide
      · rcases List.mem_cons.mp h with h2 | h2
        · rw [h2]; decide
        · exact ih (fun d hd => hl d (List.mem_cons_of_mem _ hd)) c h2
    · simp only [escape_squotes, if_neg hx] at hc
      rcases List.mem_cons.mp hc with h | h
      · rw [h]
        exact hl x (List.mem_cons_self x xs)
      · exact ih (fun d hd => hl d (List.mem_cons_of_mem _ hd)) c h

/-- The quoted rendering of a newline-free string is newline-free. -/
theorem yaml_quote_ne_nl (s : String) (hs : good_string s) :
    ∀ c ∈ yaml_quote s, c ≠ Char.ofNat 10 := by
  intro c hc
  unfold yaml_quote at hc
  rcases List.mem_cons.mp hc with hv | hv
  · rw [hv]
    decide
  · rcases List.mem_append.mp hv with hv2 | hv2
    · exact escape_squotes_ne_nl s.data hs c hv2
    · have hce : c = squote := by simpa using hv2
      rw [hce]
      decide

/-- A rendered key line is never skippable (it starts with a dash). -/
theorem is_skippable_key_line (xs : List Char) :
    is_skippable ("- key: ".data ++ xs) = false := rfl

/-- Skippable lines are ignored by the entry parsing. -/
theorem parse_entries_fuel_skip (fuel : Nat) (line : List Char)
    (rest : List (List Char)) (h : is_skippable line = true) :
    parse_entries_fuel (fuel + 1) (line :: rest) = parse_entries_fuel fuel rest := by
  rw [parse_entries_fuel, if_pos h]

/-- Names of directional kinds parse back. -/
theorem directional_of_name_render (a : DirectionalActionKind) :
    directional_of_name (directional_action_name a) = some a := by
  cases a <;> rfl

/-- Names of jump directions parse back. -/
theorem jump_direction_of_name_render (d : JumpDirection) :
    jump_direction_of_name (jump_direction_name d) = some d := by
  cases d <;> rfl

/-- Names of independent kinds parse back. -/
theorem independent_of_name_render (a : IndependentActionKind) :
    independent_of_name (independent_action_name a) = some a := by
  cases a <;> rfl

/-- Reading back the rendered lines of a `Directional` entry. -/
theorem parse_entry_head_directional (key : Nat) (ws : Bool)
    (a : DirectionalActionKind) (rest : List (List Char)) :
    parse_entry_head
      ("- key: ".data ++ nat_digit_chars key ++ " # ".data ++ js_keycode_name key)
      (("  with_shift: ".data ++ (if ws then "true".data else "false".data)) ::
       "  action:".data ::
       "    kind: directional".data ::
       ("    action: ".data ++ directional_action_name a) :: rest) =
      some (⟨key, ws, .Directional a⟩, rest) := by
  unfold parse_entry_head
  dsimp only
  rw [parse_key_line_render key, parse_with_shift_line_render ws]
  dsimp only
  rw [if_pos rfl]
  rw [show dropPre "    kind: ".data "    kind: directional".data =
        some "directional".data from rfl]
  dsimp only
  rw [if_pos rfl]
  rw [dropPre_append]
  dsimp only [Option.bind]
  rw [directional_of_name_render a]

/-- Parsing the rendered `    count:` line recovers the count. -/
theorem parse_count_line_render (n : Nat) :
    parse_count_line ("    count: ".data ++ nat_digit_chars n) = some n := by
  unfold parse_count_line
  rw [dropPre_append]
  have hfield := parse_nat_field_render n [] ⟨rfl, rfl⟩
  rw [List.append_nil] at hfield
  rw [Option.bind_eq_bind, Option.some_bind, hfield]
  rfl

/-- Reading back the rendered lines of a `Jump` entry. -/
theorem parse_entry_head_jump (key : Nat) (ws : Bool) (d : JumpDirection)
    (n : Nat) (rest : List (List Char)) :
    parse_entry_head
      ("- key: ".data ++ nat_digit_chars key ++ " # ".data ++ js_keycode_name key)
      (("  with_shift: ".data ++ (if ws then "true".data else "false".data)) ::
       "  action:".data ::
       "    kind: jump".data ::
       ("    direction: ".data ++ jump_direction_name d) ::
       ("    count: ".data ++ nat_digit_chars n) :: rest) =
      some (⟨key, ws, .Jump d n⟩, rest) := by
  unfold parse_entry_head
  dsimp only
  rw [parse_key_line_render key, parse_with_shift_line_render ws]
  dsimp only
  rw [if_pos rfl]
  rw [show dropPre "    kind: ".data "    kind: jump".data =
        some "jump".data from rfl]
  dsimp only
  rw [if_neg (by decide), if_pos rfl]
  rw [dropPre_append]
  dsimp only [Option.bind]
  rw [jump_direction_of_name_render d, parse_count_line_render n]

/-- Reading back the rendered lines of an `Independent` entry. -/
theorem parse_entry_head_independent (key : Nat) (ws : Bool)
    (a : IndependentActionKind) (rest : List (List Char)) :
    parse_entry_head
      ("- key: ".data ++ nat_digit_chars key ++ " # ".data ++ js_keycode_name key)
      (("  with_shift: ".data ++ (if ws then "true".data else "false".data)) ::
       "  action:".data ::
       "    kind: independent".data ::
       ("    action: ".data ++ independent_action_name a) :: rest) =
      some (⟨key, ws, .Independent a⟩, rest) := by
  unfold parse_entry_head
  dsimp only
  rw [parse_key_line_render key, parse_with_shift_line_render ws]
  dsimp only
  rw [if_pos rfl]
  rw [show dropPre "    kind: ".data "    kind: independent".data =
        some "independent".data from rfl]
  dsimp only
  rw [if_neg (by decide), if_neg (by decide), if_pos rfl]
  rw [dropPre_append]
  dsimp only [Option.bind]
  rw [independent_of_name_render a]

/-- Reading back the rendered lines of an `InputSource` entry. -/
theorem parse_entry_head_input_source (key : Nat) (ws : Bool) (s : String)
    (rest : List (List Char)) :
    parse_entry_head
      ("- key: ".data ++ nat_digit_chars key ++ " # ".data ++ js_keycode_name key)
      (("  with_shift: ".data ++ (if ws then "true".data else "false".data)) ::
       "  action:".data ::
       "    kind: input_source".data ::
       ("    input_source_id: ".data ++ yaml_quote s) :: rest) =
      some (⟨key, ws, .InputSource s⟩, rest) := by
  unfold parse_entry_head
  dsimp only
  rw [parse_key_line_render key, parse_with_shift_line_render ws]
  dsimp only
  rw [if_pos rfl]
  rw [show dropPre "    kind: ".data "    kind: input_source".data =
        some "input_source".data from rfl]
  dsimp only
  rw [if_neg (by decide), if_neg (by decide), if_neg (by decide), if_pos rfl]
  rw [dropPre_append]
  dsimp only [Option.bind]
  rw [parse_quoted_yaml_quote s]

/-- Reading back the rendered lines of a `Command` entry. -/
theorem parse_entry_head_command (key : Nat) (ws : Bool) (s : String)
    (rest : List (List Char)) :
    parse_entry_head
      ("- key: ".data ++ nat_digit_chars key ++ " # ".data ++ js_keycode_name key)
      (("  with_shift: ".data ++ (if ws then "true".data else "false".data)) ::
       "  action:".data ::
       "    kind: command".data ::
       ("    command: ".data ++ yaml_quote s) :: rest) =
      some (⟨key, ws, .Command s⟩, rest) := by
  unfold parse_entry_head
  dsimp only
  rw [parse_key_line_render key, parse_with_shift_line_render ws]
  dsimp only
  rw [if_pos rfl]
  rw [show dropPre "    kind: ".data "    kind: command".data =
        some "command".data from rfl]
  dsimp only
  rw [if_neg (by decide), if_neg (by decide), if_neg (by decide),
      if_neg (by decide), if_pos rfl]
  rw [dropPre_append]
  dsimp only [Option.bind]
  rw [parse_quoted_yaml_quote s]

/-- Consuming the rendered lines of one entry during parsing. -/
theorem parse_entries_fuel_entry (fuel : Nat) (e : ActionMappingEntry)
    (rest : List (List Char)) :
    parse_entries_fuel (fuel + 1) (entry_lines e ++ rest) =
      (parse_entries_fuel fuel rest).map (fun es => e :: es) := by
  obtain ⟨key, ws, action⟩ := e
  cases action with
  | Directional a =>
    show parse_entries_fuel (fuel + 1)
      (("- key: ".data ++ nat_digit_chars key ++ " # ".data ++ js_keycode_name key) ::
       ("  with_shift: ".data ++ (if ws then "true".data else "false".data)) ::
       "  action:".data ::
       "    kind: directional".data ::
       ("    action: ".data ++ directional_action_name a) :: rest) = _
    rw [parse_entries_fuel]
    rw [if_neg (by
      rw [List.append_assoc, List.append_assoc, is_skippable_key_line]
      exact Bool.false_ne_true)]
    rw [parse_entry_head_directional]
  | Jump d n =>
    show parse_entries_fuel (fuel + 1)
      (("- key: ".data ++ nat_digit_chars key ++ " # ".data ++ js_keycode_name key) ::
       ("  with_shift: ".data ++ (if ws then "true".data else "false".data)) ::
       "  action:".data ::
       "    kind: jump".data ::
       ("    direction: ".data ++ jump_direction_name d) ::
       ("    count: ".data ++ nat_digit_chars n) :: rest) = _
    rw [parse_entries_fuel]
    rw [if_neg (by
      rw [List.append_assoc, List.append_assoc, is_skippable_key_line]
      exact Bool.false_ne_true)]
    rw [parse_entry_head_jump]
  | Independent a =>
    show parse_entries_fuel (fuel + 1)
      (("- key: ".data ++ nat_digit_chars key ++ " # ".data ++ js_keycode_name key) ::
       ("  with_shift: ".data ++ (if ws then "true".data else "false".data)) ::
       "  action:".data ::
       "    kind: independent".data ::
       ("    action: ".data ++ independent_action_name a) :: rest) = _
    rw [parse_entries_fuel]
    rw [if_neg (by
      rw [List.append_assoc, List.append_assoc, is_skippable_key_line]
      exact Bool.false_ne_true)]
    rw [parse_entry_head_independent]
  | InputSource s =>
    show parse_entries_fuel (fuel + 1)
      (("- key: ".data ++ nat_digit_chars key ++ " # ".data ++ js_keycode_name key) ::
       ("  with_shift: ".data ++ (if ws then "true".data else "false".data)) ::
       "  action:".data ::
       "    kind: input_source".data ::
       ("    input_source_id: ".data ++ yaml_quote s) :: rest) = _
    rw [parse_entries_fuel]
    rw [if_neg (by
      rw [List.append_assoc, List.append_assoc, is_skippable_key_line]
      exact Bool.false_ne_true)]
    rw [parse_entry_head_input_source]
  | Command s =>
    show parse_entries_fuel (fuel + 1)
      (("- key: ".data ++ nat_digit_chars key ++ " # ".data ++ js_keycode_name key) ::
       ("  with_shift: ".data ++ (if ws then "true".data else "false".data)) ::
       "  action:".data ::
       "    kind: command".data ::
       ("    command: ".data ++ yaml_quote s) :: rest) = _
    rw [parse_entries_fuel]
    rw [if_neg (by
      rw [List.append_assoc, List.append_assoc, is_skippable_key_line]
      exact Bool.false_ne_true)]
    rw [parse_entry_head_command]

/-- Exhausted input parses to the empty table at any fuel. -/
theorem parse_entries_fuel_nil (fuel : Nat) :
    parse_entries_fuel fuel [] = some [] := by
  cases fuel <;> rfl

/-- An entry renders to at least one line. -/
theorem entry_lines_length_pos (e : ActionMappingEntry) :
    1 ≤ (entry_lines e).length := by
  simp [entry_lines]

/-- Parsing the concatenated rendered entries (with the trailing blank
line) recovers the entry list, for any sufficient fuel. -/
theorem parse_entries_fuel_flat (l : List ActionMappingEntry) :
    ∀ fuel, (l.flatMap entry_lines).length + 1 ≤ fuel →
    parse_entries_fuel fuel (l.flatMap entry_lines ++ [[]]) = some l := by
  induction l with
  | nil =>
    intro fuel hf
    cases fuel with
    | zero => omega
    | succ f =>
      show parse_entries_fuel (f + 1) ([] :: []) = some []
      rw [parse_entries_fuel_skip f [] [] (by decide)]
      exact parse_entries_fuel_nil f
  | cons e t ih =>
    intro fuel hf
    cases fuel with
    | zero =>
      exfalso
      omega
    | succ f =>
      rw [List.flatMap_cons, List.append_assoc]
      rw [parse_entries_fuel_entry f e _]
      rw [ih f (by
        have h1 := entry_lines_length_pos e
        rw [List.flatMap_cons, List.length_append] at hf
        omega)]
      rfl

/-- The rendered key line is newline-free. -/
theorem key_line_ne_nl (key : Nat) :
    ∀ c ∈ "- key: ".data ++ nat_digit_chars key ++ " # ".data ++
      js_keycode_name key, c ≠ Char.ofNat 10 := by
  intro c hc
  rw [List.append_assoc, List.append_assoc] at hc
  rcases List.mem_append.mp hc with hv | hv
  · fin_cases hv <;> decide
  rcases List.mem_append.mp hv with hv2 | hv2
  · exact ne_nl_of_isDigit (nat_digit_chars_isDigit key c hv2)
  rcases List.mem_append.mp hv2 with hv3 | hv3
  · fin_cases hv3 <;> decide
  · exact js_keycode_name_ne_nl key c hv3

/-- The rendered `with_shift` line is newline-free. -/
theorem ws_line_ne_nl (ws : Bool) :
    ∀ c ∈ "  with_shift: ".data ++ (if ws then "true".data else "false".data),
      c ≠ Char.ofNat 10 := by
  cases ws <;> (intro c hc; fin_cases hc <;> decide)

/-- Every rendered line of an entry is newline-free, provided the entry's
strings are. -/
theorem entry_lines_ne_nl (e : ActionMappingEntry) (hg : good_entry e) :
    ∀ line ∈ entry_lines e, ∀ c ∈ line, c ≠ Char.ofNat 10 := by
  obtain ⟨key, ws, action⟩ := e
  intro line hline
  rcases List.mem_cons.mp hline with h | h
  · rw [h]
    exact key_line_ne_nl key
  rcases List.mem_cons.mp h with h2 | h2
  · rw [h2]
    exact ws_line_ne_nl ws
  rcases List.mem_cons.mp h2 with h3 | h3
  · rw [h3]
    intro c hc
    fin_cases hc <;> decide
  cases action with
  | Directional a =>
    rcases List.mem_cons.mp h3 with h4 | h4
    · rw [h4]
      intro c hc
      fin_cases hc <;> decide
    · have h5 : line = "    action: ".data ++ directional_action_name a := by
        simpa [action_lines] using h4
      rw [h5]
      intro c hc
      rcases List.mem_append.mp hc with hv | hv
      · fin_cases hv <;> decide
      · cases a <;> fin_cases hv <;> decide
  | Jump d n =>
    rcases List.mem_cons.mp h3 with h4 | h4
    · rw [h4]
      intro c hc
      fin_cases hc <;> decide
    rcases List.mem_cons.mp h4 with h5 | h5
    · rw [h5]
      intro c hc
      rcases List.mem_append.mp hc with hv | hv
      · fin_cases hv <;> decide
      · cases d <;> fin_cases hv <;> decide
    · have h6 : line = "    count: ".data ++ nat_digit_chars n := by
        simpa [action_lines] using h5
      rw [h6]
      intro c hc
      rcases List.mem_append.mp hc with hv | hv
      · fin_cases hv <;> decide
      · exact ne_nl_of_isDigit (nat_digit_chars_isDigit n c hv)
  | Independent a =>
    rcases List.mem_cons.mp h3 with h4 | h4
    · rw [h4]
      intro c hc
      fin_cases hc <;> decide
    · have h5 : line = "    action: ".data ++ independent_action_name a := by
        simpa [action_lines] using h4
      rw [h5]
      intro c hc
      rcases List.mem_append.mp hc with hv | hv
      · fin_cases hv <;> decide
      · cases a <;> fin_cases hv <;> decide
  | InputSource s =>
    rcases List.mem_cons.mp h3 with h4 | h4
    · rw [h4]
      intro c hc
      fin_cases hc <;> decide
    · have h5 : line = "    input_source_id: ".data ++ yaml_quote s := by
        simpa [action_lines] using h4
      rw [h5]
      intro c hc
      rcases List.mem_append.mp hc with hv | hv
      · fin_cases hv <;> decide
      · exact yaml_quote_ne_nl s hg c hv
  | Command s =>
    rcases List.mem_cons.mp h3 with h4 | h4
    · rw [h4]
      intro c hc
      fin_cases hc <;> decide
    · have h5 : line = "    command: ".data ++ yaml_quote s := by
        simpa [action_lines] using h4
      rw [h5]
      intro c hc
      rcases List.mem_append.mp hc with hv | hv
      · fin_cases hv <;> decide
      · exact yaml_quote_ne_nl s hg c hv

/-- Every line the renderer produces is newline-free, provided the
table's strings are. -/
theorem render_lines_ne_nl (l : List ActionMappingEntry)
    (h : ∀ e ∈ l, good_entry e) :
    ∀ line ∈ render_lines l, ∀ c ∈ line, c ≠ Char.ofNat 10 := by
  intro line hline
  rcases List.mem_append.mp hline with hv | hv
  · rcases List.mem_cons.mp hv with h1 | h1
    · rw [h1]
      intro c hc
      fin_cases hc <;> decide
    rcases List.mem_cons.mp h1 with h2 | h2
    · rw [h2]
      intro c hc
      fin_cases hc <;> decide
    · have h3 : line = "# with_shift=false -> Caps+Key, with_shift=true -> Caps+Shift+Key".data := by
        simpa [header_lines] using h2
      rw [h3]
      intro c hc
      fin_cases hc <;> decide
  · rcases List.mem_flatMap.mp hv with ⟨e, he, hle⟩
    exact entry_lines_ne_nl e (h e he) line hle

/-- Counterexample to claim C8 as stated ("strings containing arbitrary
characters"): a `Command` whose text contains a newline renders across
two physical lines, and deserializing the rendered text does not give the
original table back. -/
theorem claim_C8_counterexample :
    parse_action_mappings_yaml
        (render_action_mappings_yaml_with_comments
          [⟨72, false, .Command "a\nb"⟩]) = none ∧
    parse_action_mappings_yaml
        (render_action_mappings_yaml_with_comments
          [⟨72, false, .Command "a\nb"⟩]) ≠
      some [⟨72, false, .Command "a\nb"⟩] := by
  constructor
  · rfl
  · intro hc
    cases hc.symm.trans (rfl :
      parse_action_mappings_yaml
        (render_action_mappings_yaml_with_comments
          [⟨72, false, .Command "a\nb"⟩]) = none)

/-- Claim C8 as amended: for every mapping table whose `Command` and
`InputSource` strings contain no newline, rendering to the YAML
persistence format and deserializing the text yields the original ordered
entry list (strings with quotes, spaces or any other non-newline
characters round-trip; a newline breaks the single-quoted scalar across
lines and the round trip fails, see the counterexample). -/
theorem claim_C8_yaml_round_trip (l : List ActionMappingEntry)
    (h : ∀ e ∈ l, good_entry e) :
    parse_action_mappings_yaml
      (render_action_mappings_yaml_with_comments l) = some l := by
  unfold parse_action_mappings_yaml render_action_mappings_yaml_with_comments
  have hsplit : split_on_nl (join_with_nl (render_lines l) ++ [Char.ofNat 10]) =
      render_lines l ++ [[]] := by
    apply split_on_nl_join
    · simp [render_lines, header_lines]
    · exact render_lines_ne_nl l h
  rw [hsplit]
  have hlen : (render_lines l ++ [[]]).length =
      (l.flatMap entry_lines).length + 1 + 1 + 1 + 1 := by
    simp [render_lines, header_lines]
  rw [hlen]
  show parse_entries_fuel ((l.flatMap entry_lines).length + 1 + 1 + 1 + 1)
      ("# HyperCapslock action mappings".data ::
       "# key uses JavaScript keyCode".data ::
       "# with_shift=false -> Caps+Key, with_shift=true -> Caps+Shift+Key".data ::
       (l.flatMap entry_lines ++ [[]])) = some l
  rw [parse_entries_fuel_skip _ _ _ (by decide)]
  rw [parse_entries_fuel_skip _ _ _ (by decide)]
  rw [parse_entries_fuel_skip _ _ _ (by decide)]
  exact parse_entries_fuel_flat l _ (by omega)

/-- Witness for C8 at a concrete table mixing a directional binding and a
shell command. -/
theorem claim_C8_yaml_round_trip_witness :
    parse_action_mappings_yaml (render_action_mappings_yaml_with_comments
      [⟨72, false, .Directional .Left⟩, ⟨77, true, .Command "echo hi"⟩]) =
      some [⟨72, false, .Directional .Left⟩, ⟨77, true, .Command "echo hi"⟩] :=
  claim_C8_yaml_round_trip
    [⟨72, false, .Directional .Left⟩, ⟨77, true, .Command "echo hi"⟩]
    (by
      intro e he
      fin_cases he
      · trivial
      · intro c hc
        fin_cases hc <;> decide)

end HyperCapslock
